import Mathlib

/-!
# yumsynth: the 4-operator FM voice (Voice.cpp)

A shallow embedding of `Voice` from `src/yumsynth/Voice.cpp`.

* `std::vector<Operator*> operators` is a `List Operator`; an `Operator*` held in
  `slots` or in an operator's input list is the index of that operator in
  `operators` (every operator is a distinct heap object owned by the voice).
* `int` values are `Int`, `float` values are `ℚ` (arithmetic read exactly).
* An indexing `operators[ i ]` with `i` outside the vector is undefined behaviour
  in C++; the embedding returns `none` there.
* `Operator.h` / `Operator.cpp` are not part of the sources.  Every call the voice
  makes on an operator is recorded, in order, in the ghost field `log`; what an
  operator returns is taken as a parameter (`OperatorBehaviour`), a function of
  the calls made so far.
-/

namespace YumSynth

/-- One call made by the voice on an operator it owns (or one read of the
external frequency table), in program order. -/
inductive Event where
  | setSamplerate (op : Nat) (sr : Int)
  | resetInputOperators (op : Nat)
  | addInputOperator (op other : Nat)
  | evaluate (op : Nat)
  | postEvaluate (op : Nat)
  | noteOn (op : Nat) (frequency : ℚ)
  | noteOff (op : Nat)
  | setParam (op : Nat) (param : Int) (value : ℚ)
  | getParam (op : Nat) (param : Int)
  | isPlaying (op : Nat)
  | frequencyTableRead (n : Nat)
  deriving DecidableEq, Repr

/-- Modelled from the spec: `Operator` (Operator.h, Operator.cpp) is not among the
sources.  Of an operator the voice-level model keeps its modulation inputs, "an
ordered set of references to other Operators", as indices into the owning
voice's `operators`; an operator made by `new Operator()` has none. -/
structure Operator where
  inputOperators : List Nat
  deriving DecidableEq, Repr

/-- Modelled from the spec: `resetInputOperators()` mutates the modulation-input
set so that it "is cleared before a new topology assigns fresh ones". -/
def Operator.resetInputOperators (_o : Operator) : Operator :=
  { inputOperators := [] }

/-- Modelled from the spec: `addInputOperator(other)` adds `other` to the ordered
modulation-input set. -/
def Operator.addInputOperator (o : Operator) (other : Nat) : Operator :=
  { inputOperators := o.inputOperators ++ [other] }

/-- What the absent `Operator` class returns from its value-returning methods, as
a function of the calls made on the operators so far. -/
structure OperatorBehaviour where
  evaluate : List Event → Nat → ℚ
  getParam : List Event → Nat → Int → ℚ
  isPlaying : List Event → Nat → Bool

/-- The members of `class Voice` used by Voice.cpp, and the ghost call `log`. -/
structure Voice where
  frequencyTable : List ℚ
  numOperators : Int
  note : Int
  samplerate : Int
  operators : List Operator
  slots : List Nat
  operatorArrangement : Int
  numOperatorArrangements : Int
  operatorArrangementDescriptions : List String
  log : List Event
  deriving DecidableEq, Repr

/-- Constructor `Voice::Voice( float* freq, int numOps )`: the loop
`for( int i = 0; i < numOperators; i++ )` creates `numOps` operators (none when
`numOps <= 0`) and sets the sample rate of each; no wiring is built. -/
def Voice.construct (freq : List ℚ) (numOps : Int) : Voice :=
  { frequencyTable := freq
    numOperators := numOps
    note := -1
    samplerate := 48000
    operators := List.replicate numOps.toNat { inputOperators := [] }
    slots := []
    operatorArrangement := 0
    numOperatorArrangements := 10
    operatorArrangementDescriptions :=
      ["1>2>3>4", "1+2>3>4", "1+(2>3)>4", "(1>2)+3>4", "1>2,3>4",
       "1>2,1>3,1>4", "1>2,3,4", "1,2,3,4", "1>2", "1"]
    log := (List.range numOps.toNat).map (fun i => Event.setSamplerate i 48000) }

/-- The loop `for i < slots.size(): out += slots[ i ]->evaluate()` of
`Voice::evaluate`, carrying `out` and the call log. -/
def Voice.evaluateSlots (B : OperatorBehaviour) : List Nat → ℚ × List Event → ℚ × List Event
  | [], acc => acc
  | s :: rest, (out, log) =>
      Voice.evaluateSlots B rest (out + B.evaluate log s, log ++ [Event.evaluate s])

/-- Method `Voice::evaluate`: returns the output sample and the voice afterwards. -/
def Voice.evaluate (B : OperatorBehaviour) (v : Voice) : ℚ × Voice :=
  let r := Voice.evaluateSlots B v.slots (0, v.log)
  let out := if v.slots.length > 1 then r.1 / (v.slots.length : ℚ) else r.1
  let log2 := (List.range v.operators.length).foldl
    (fun l i => l ++ [Event.postEvaluate i]) r.2
  (out, { v with log := log2 })

/-- Method `Voice::noteOn`; `none` when `frequencyTable[ note ]` is outside the
table. -/
def Voice.noteOn (v : Voice) (n : Int) : Option Voice :=
  if n < 0 ∨ n > 127 then some v
  else
    match v.frequencyTable[n.toNat]? with
    | none => none
    | some frequency =>
        some { v with
          note := n
          log := (List.range v.operators.length).foldl
            (fun l i => l ++ [Event.noteOn i frequency])
            (v.log ++ [Event.frequencyTableRead n.toNat]) }

/-- Method `Voice::noteOff`. -/
def Voice.noteOff (v : Voice) : Voice :=
  { v with
    note := -1
    log := (List.range v.operators.length).foldl
      (fun l i => l ++ [Event.noteOff i]) v.log }

/-- Method `Voice::setSamplerate`. -/
def Voice.setSamplerate (v : Voice) (sr : Int) : Voice :=
  { v with
    samplerate := sr
    log := (List.range v.operators.length).foldl
      (fun l i => l ++ [Event.setSamplerate i sr]) v.log }

/-- Method `Voice::getNote`. -/
def Voice.getNote (v : Voice) : Int := v.note

/-- The statement `slots.push_back( operators[ i ] )`. -/
def Voice.pushSlot (v : Voice) (i : Nat) : Option Voice :=
  match v.operators[i]? with
  | none => none
  | some _ => some { v with slots := v.slots ++ [i] }

/-- The statement `operators[ i ]->addInputOperator( operators[ j ] )`. -/
def Voice.addInput (v : Voice) (i j : Nat) : Option Voice :=
  match v.operators[i]?, v.operators[j]? with
  | some o, some _ =>
      some { v with
        operators := v.operators.set i (o.addInputOperator j)
        log := v.log ++ [Event.addInputOperator i j] }
  | _, _ => none

/-- The loop `for i < operators.size(): operators[ i ]->resetInputOperators()`. -/
def Voice.resetAll (v : Voice) : Voice :=
  { v with
    operators := v.operators.map Operator.resetInputOperators
    log := (List.range v.operators.length).foldl
      (fun l i => l ++ [Event.resetInputOperators i]) v.log }

/-- Case 0 loop `for( unsigned int i = operators.size() - 1; i > 0; i-- )`, from
counter value `i` on. -/
def Voice.chainLoop : Nat → Voice → Option Voice
  | 0, v => some v
  | i + 1, v => (v.addInput (i + 1) i).bind (Voice.chainLoop i)

/-- Case 4 loop `for( int i = (int)operators.size() - 1; i > 0; i -= 2 )`, from
counter value `i` on; a counter that is not positive (0 or -1) ends the loop. -/
def Voice.pairLoop : Nat → Voice → Option Voice
  | 0, v => some v
  | 1, v => (v.pushSlot 1).bind (fun v1 => v1.addInput 1 0)
  | i + 2, v =>
      (v.pushSlot (i + 2)).bind (fun v1 =>
        (v1.addInput (i + 2) (i + 1)).bind (Voice.pairLoop i))

/-- Case 5 loop `for( unsigned int i = 1; i < operators.size(); i++ )`. -/
def Voice.fanLoop (v : Voice) : Option Voice :=
  ((List.range v.operators.length).drop 1).foldlM
    (fun w i => (w.pushSlot i).bind (fun w1 => w1.addInput i 0)) v

/-- Cases 6 and 7 loops `for( unsigned int i = first; i < operators.size(); i++ )`
pushing every operator from `first` on. -/
def Voice.slotLoop (first : Nat) (v : Voice) : Option Voice :=
  ((List.range v.operators.length).drop first).foldlM
    (fun w i => w.pushSlot i) v

/-- Method `Voice::setOperatorArrangement`. -/
def Voice.setOperatorArrangement (v : Voice) (type : Int) : Option Voice :=
  if type < 0 ∨ type > v.numOperatorArrangements ∨ type = v.operatorArrangement then
    some v
  else
    let v0 := ({ v with operatorArrangement := type, slots := [] } : Voice).resetAll
    if type = 0 then
      -- `operators.size() - 1` is unsigned: for an empty vector it wraps around
      if v0.operators.length = 0 then none
      else (v0.pushSlot (v0.operators.length - 1)).bind
        (Voice.chainLoop (v0.operators.length - 1))
    else if type = 1 then
      (v0.pushSlot 3).bind (fun a => (a.addInput 3 2).bind (fun b =>
        (b.addInput 2 0).bind (fun c => c.addInput 2 1)))
    else if type = 2 then
      (v0.pushSlot 3).bind (fun a => (a.addInput 3 0).bind (fun b =>
        (b.addInput 3 2).bind (fun c => c.addInput 2 1)))
    else if type = 3 then
      (v0.pushSlot 3).bind (fun a => (a.addInput 3 2).bind (fun b =>
        (b.addInput 3 1).bind (fun c => c.addInput 2 0)))
    else if type = 4 then
      Voice.pairLoop (v0.operators.length - 1) v0
    else if type = 5 then
      v0.fanLoop
    else if type = 6 then
      (v0.slotLoop 1).bind (fun a => a.addInput 1 0)
    else if type = 7 then
      v0.slotLoop 0
    else if type = 8 then
      (v0.pushSlot 1).bind (fun a => a.addInput 1 0)
    else if type = 9 then
      v0.pushSlot 0
    else
      some v0

/-- Method `Voice::getOperatorArrangement`. -/
def Voice.getOperatorArrangement (v : Voice) : Int := v.operatorArrangement

/-- Method `Voice::getNumOperatorArrangements`. -/
def Voice.getNumOperatorArrangements (v : Voice) : Int := v.numOperatorArrangements

/-- Method `Voice::getOperatorArrangementDescription`; `none` when the vector of
descriptions is indexed outside its bounds. -/
def Voice.getOperatorArrangementDescription (v : Voice) (type : Int) : Option String :=
  if type < 0 ∨ type ≥ v.numOperatorArrangements then some ""
  else v.operatorArrangementDescriptions[type.toNat]?

/-- Method `Voice::setOperatorParam`. -/
def Voice.setOperatorParam (v : Voice) (op param : Int) (value : ℚ) : Option Voice :=
  if op < 0 ∨ op ≥ v.numOperators then some v
  else
    match v.operators[op.toNat]? with
    | none => none
    | some _ => some { v with log := v.log ++ [Event.setParam op.toNat param value] }

/-- Method `Voice::getOperatorParam`; the float literal `-9999.9f` is read as the
decimal it is written as. -/
def Voice.getOperatorParam (B : OperatorBehaviour) (v : Voice) (op param : Int) :
    Option (ℚ × Voice) :=
  if op < 0 ∨ op ≥ v.numOperators then some (-99999 / 10, v)
  else
    match v.operators[op.toNat]? with
    | none => none
    | some _ =>
        some (B.getParam v.log op.toNat param,
          { v with log := v.log ++ [Event.getParam op.toNat param] })

/-- The loop of `Voice::isPlaying`, carrying `playing` and the call log;
`playing || slots[ i ]->isPlaying()` short-circuits, so the operator is asked
only while `playing` is false. -/
def Voice.isPlayingLoop (B : OperatorBehaviour) : List Nat → Bool × List Event → Bool × List Event
  | [], acc => acc
  | s :: rest, (playing, log) =>
      if playing then Voice.isPlayingLoop B rest (true, log)
      else Voice.isPlayingLoop B rest (B.isPlaying log s, log ++ [Event.isPlaying s])

/-- Method `Voice::isPlaying`. -/
def Voice.isPlaying (B : OperatorBehaviour) (v : Voice) : Bool × Voice :=
  let r := Voice.isPlayingLoop B v.slots (false, v.log)
  (r.1, { v with log := r.2 })

/-- The public operations of a voice that change its state or call an operator
(the remaining public methods only read a member). -/
inductive Op where
  | setOperatorArrangement (type : Int)
  | noteOn (n : Int)
  | noteOff
  | evaluate
  | setSamplerate (sr : Int)
  | setOperatorParam (op param : Int) (value : ℚ)
  | getOperatorParam (op param : Int)
  | isPlaying
  deriving DecidableEq, Repr

/-- One public operation applied to a voice. -/
def Voice.apply (B : OperatorBehaviour) (v : Voice) : Op → Option Voice
  | Op.setOperatorArrangement type => v.setOperatorArrangement type
  | Op.noteOn n => v.noteOn n
  | Op.noteOff => some v.noteOff
  | Op.evaluate => some (v.evaluate B).2
  | Op.setSamplerate sr => some (v.setSamplerate sr)
  | Op.setOperatorParam op param value => v.setOperatorParam op param value
  | Op.getOperatorParam op param => (v.getOperatorParam B op param).map (fun r => r.2)
  | Op.isPlaying => some (v.isPlaying B).2

/-- A sequence of public operations applied in order. -/
def Voice.run (B : OperatorBehaviour) (v : Voice) (ops : List Op) : Option Voice :=
  ops.foldlM (Voice.apply B) v

/-- A sequence of `setOperatorArrangement` calls applied in order. -/
def Voice.arrange (v : Voice) (types : List Int) : Option Voice :=
  types.foldlM Voice.setOperatorArrangement v

/-- The modulation inputs of operator `i` (empty when there is no such operator). -/
def Voice.inputsOf (v : Voice) (i : Nat) : List Nat :=
  match v.operators[i]? with
  | some o => o.inputOperators
  | none => []

/-! ## Auxiliary definitions for the statements -/

/-- A state of a voice built by `Voice( freq, 4 )`: the three members fixed by the
constructor and changed by no method. -/
def Voice.IsFourOperator (v : Voice) : Prop :=
  v.numOperators = 4 ∧ v.operators.length = 4 ∧ v.numOperatorArrangements = 10

instance (v : Voice) : Decidable v.IsFourOperator := by
  unfold Voice.IsFourOperator; infer_instance

/-- The wiring of a voice read as sets: `slotSet` is the set of slot operators and
`inputSets` lists, operator by operator, the set of its modulation inputs. -/
def Voice.hasWiring (w : Voice) (slotSet : Finset Nat) (inputSets : List (Finset Nat)) : Prop :=
  w.slots.toFinset = slotSet ∧
    w.operators.map (fun o => o.inputOperators.toFinset) = inputSets

instance (w : Voice) (s : Finset Nat) (l : List (Finset Nat)) : Decidable (w.hasWiring s l) := by
  unfold Voice.hasWiring; infer_instance

/-- Operator `a` is a modulation input of operator `b`. -/
def Voice.modulates (w : Voice) (a b : Nat) : Prop := a ∈ w.inputsOf b

/-- Every modulation input of an owned operator has a strictly lower index. -/
def Voice.InputsAscend (w : Voice) : Prop :=
  ∀ i < w.operators.length, ∀ j ∈ w.inputsOf i, j < i

instance (w : Voice) : Decidable w.InputsAscend := by
  unfold Voice.InputsAscend; infer_instance

/-- A 4-operator voice with no wiring, no history and an arrangement index that no
call can name; `setOperatorArrangement` is run on it to read off a topology. -/
def Voice.canon : Voice :=
  { Voice.construct [] 4 with operatorArrangement := -1, log := [] }

/-- The voice `v` with the arrangement, slots and operators of `c`, and the calls
of `c` appended to its own. -/
def Voice.rewire (v c : Voice) : Voice :=
  { v with
    operatorArrangement := c.operatorArrangement
    slots := c.slots
    operators := c.operators
    log := v.log ++ c.log }

/-- The values returned by the calls `slots[ i ]->evaluate()`, one call per slot in
slot order, starting from the call history `log`. -/
def Voice.slotValuesFrom (B : OperatorBehaviour) : List Nat → List Event → List ℚ
  | [], _ => []
  | s :: rest, log => B.evaluate log s :: Voice.slotValuesFrom B rest (log ++ [Event.evaluate s])

/-- The slot values v_1..v_k of one sample of the voice `v`. -/
def Voice.slotValues (B : OperatorBehaviour) (v : Voice) : List ℚ :=
  Voice.slotValuesFrom B v.slots v.log

/-- A 4-operator voice state wired as the chain 1>2>3>4, with a note playing. -/
def Voice.chainExample : Voice :=
  { Voice.construct [] 4 with
    note := 60
    slots := [3]
    operators := [{ inputOperators := [] }, { inputOperators := [0] },
      { inputOperators := [1] }, { inputOperators := [2] }] }

/-- An operator behaviour for examples: operator `op` evaluates to `op + 1` (op1
gives 1, op2 gives 2, ...), every parameter reads 0, only op1 is playing. -/
def OperatorBehaviour.sample : OperatorBehaviour :=
  { evaluate := fun _ op => (op : ℚ) + 1
    getParam := fun _ _ _ => 0
    isPlaying := fun _ op => op == 0 }

/-- What the slot operators report when `Voice::isPlaying` asks them one after the
other in slot order, starting from the call history `log`. -/
def Voice.slotReportsFrom (B : OperatorBehaviour) : List Nat → List Event → List Bool
  | [], _ => []
  | s :: rest, log =>
      B.isPlaying log s :: Voice.slotReportsFrom B rest (log ++ [Event.isPlaying s])

/-- The reports of the slot operators of the voice `v`, in slot order. -/
def Voice.slotReports (B : OperatorBehaviour) (v : Voice) : List Bool :=
  Voice.slotReportsFrom B v.slots v.log

/-- Asking an operator whether it is playing is a pure query: an `isPlaying` call
does not change what any operator reports afterwards. -/
def OperatorBehaviour.IsPlayingIsQuery (B : OperatorBehaviour) : Prop :=
  ∀ (log : List Event) (asked s : Nat),
    B.isPlaying (log ++ [Event.isPlaying asked]) s = B.isPlaying log s

/-- A frequency table for examples: 128 entries, entry `n` is `n + 1`. -/
def sampleFrequencyTable : List ℚ :=
  (List.range 128).map (fun (n : Nat) => (n : ℚ) + 1)

/-- The members set by the constructor that no method assigns: `w` has the
frequency table, operator count, number of owned operators, number of arrangements
and descriptions of `v`. -/
def Voice.SameFixed (v w : Voice) : Prop :=
  w.frequencyTable = v.frequencyTable ∧ w.numOperators = v.numOperators ∧
    w.operators.length = v.operators.length ∧
    w.numOperatorArrangements = v.numOperatorArrangements ∧
    w.operatorArrangementDescriptions = v.operatorArrangementDescriptions

/-- The voice `w` is wired as `v`: same arrangement index, slots and operators. -/
def Voice.SameWiring (v w : Voice) : Prop :=
  w.operatorArrangement = v.operatorArrangement ∧ w.slots = v.slots ∧
    w.operators = v.operators

/-- No slot and no modulation input. -/
def Voice.Unwired (v : Voice) : Prop :=
  v.slots = [] ∧ ∀ o ∈ v.operators, o.inputOperators = []

/-- The operation is no `setOperatorArrangement` call other than
`setOperatorArrangement( 0 )`. -/
def Op.KeepsArrangementZero : Op → Prop
  | Op.setOperatorArrangement type => type = 0
  | _ => True

/-- The operation is a `setOperatorArrangement( t )` call with t in 1..9. -/
def Op.SelectsOneToNine : Op → Prop
  | Op.setOperatorArrangement type => 1 ≤ type ∧ type ≤ 9
  | _ => False

instance (op : Op) : Decidable op.SelectsOneToNine := by
  cases op <;> unfold Op.SelectsOneToNine <;> infer_instance

/-- The slots name owned operators of a 4-operator voice, each at most once. -/
def Voice.SlotsOwned (v : Voice) : Prop :=
  (∀ s ∈ v.slots, s < 4) ∧ v.slots.Nodup

instance (v : Voice) : Decidable v.SlotsOwned := by
  unfold Voice.SlotsOwned; infer_instance

/-! ## Lemmas on `setOperatorArrangement` -/

theorem four_operators (l : List Operator) (h : l.length = 4) :
    ∃ a b c d, l = [a, b, c, d] := by
  match l, h with
  | [a, b, c, d], _ => exact ⟨a, b, c, d, rfl⟩

/-- The guard of `setOperatorArrangement`: a rejected index leaves the voice as it is. -/
theorem setOperatorArrangement_rejected (v : Voice) (t : Int)
    (h : t < 0 ∨ t > v.numOperatorArrangements ∨ t = v.operatorArrangement) :
    v.setOperatorArrangement t = some v := by
  simp [Voice.setOperatorArrangement, h]

/-- On a 4-operator voice an accepted index rebuilds the wiring from nothing: the
result is the one obtained on `Voice.canon`, whatever the wiring was before. -/
theorem setOperatorArrangement_canon (v : Voice) (h : v.IsFourOperator) (t : Int)
    (ht : t ≠ v.operatorArrangement) (h0 : 0 ≤ t) (h10 : t ≤ 10) :
    v.setOperatorArrangement t = (Voice.canon.setOperatorArrangement t).map v.rewire := by
  obtain ⟨_, hl, ha⟩ := h
  obtain ⟨a, b, c, d, hops⟩ := four_operators v.operators hl
  interval_cases t <;>
    simp [Voice.setOperatorArrangement, Voice.canon, Voice.construct, Voice.rewire, ha, hops, ht,
      Voice.resetAll, Voice.pushSlot, Voice.addInput, Voice.chainLoop, Voice.pairLoop,
      Voice.fanLoop, Voice.slotLoop, Operator.resetInputOperators, Operator.addInputOperator,
      List.range_succ, Option.bind]

/-- Every index 0..10 is accepted on `Voice.canon`, and the wiring it builds has
four operators, ascending inputs and the index stored. -/
theorem canon_arrangements :
    ∀ n < 11, ∃ c, Voice.canon.setOperatorArrangement (n : Nat) = some c ∧
      c.operators.length = 4 ∧ c.InputsAscend ∧ c.operatorArrangement = (n : Nat) := by
  decide

theorem rewire_isFourOperator (v c : Voice) (h : v.IsFourOperator)
    (hc : c.operators.length = 4) : (v.rewire c).IsFourOperator :=
  ⟨h.1, hc, h.2.2⟩

/-- One `setOperatorArrangement` call on a 4-operator voice with ascending inputs
returns such a voice again. -/
theorem setOperatorArrangement_preserves (v : Voice) (t : Int)
    (h : v.IsFourOperator ∧ v.InputsAscend) :
    ∃ w, v.setOperatorArrangement t = some w ∧ w.IsFourOperator ∧ w.InputsAscend := by
  by_cases hg : t < 0 ∨ t > v.numOperatorArrangements ∨ t = v.operatorArrangement
  · exact ⟨v, setOperatorArrangement_rejected v t hg, h⟩
  · have ha : v.numOperatorArrangements = 10 := h.1.2.2
    rw [ha] at hg
    push_neg at hg
    obtain ⟨h0, h10, hne⟩ := hg
    obtain ⟨c, hc, hlen, hasc, _⟩ := canon_arrangements t.toNat (by omega)
    rw [Int.toNat_of_nonneg h0] at hc
    refine ⟨v.rewire c, ?_, rewire_isFourOperator v c h.1 hlen, ?_⟩
    · rw [setOperatorArrangement_canon v h.1 t hne h0 h10, hc]; rfl
    · exact hasc

theorem arrange_preserves (types : List Int) :
    ∀ v : Voice, v.IsFourOperator ∧ v.InputsAscend →
      ∃ w, v.arrange types = some w ∧ w.IsFourOperator ∧ w.InputsAscend := by
  induction types with
  | nil => intro v h; exact ⟨v, rfl, h⟩
  | cons t rest ih =>
      intro v h
      obtain ⟨u, hu, hinv⟩ := setOperatorArrangement_preserves v t h
      obtain ⟨w, hw, hw2⟩ := ih u hinv
      refine ⟨w, ?_, hw2⟩
      simp only [Voice.arrange, List.foldlM_cons, hu] at hw ⊢
      exact hw

theorem inputsOf_beyond (w : Voice) (i : Nat) (h : w.operators.length ≤ i) :
    w.inputsOf i = [] := by
  simp [Voice.inputsOf, List.getElem?_eq_none h]

theorem inputsAscend_all (w : Voice) (h : w.InputsAscend) (i j : Nat)
    (hj : j ∈ w.inputsOf i) : j < i := by
  by_cases hi : i < w.operators.length
  · exact h i hi j hj
  · rw [inputsOf_beyond w i (by omega)] at hj
    cases hj

theorem modulates_chain_ascends (w : Voice) (h : w.InputsAscend) (a b : Nat)
    (hab : Relation.TransGen w.modulates a b) : a < b := by
  induction hab with
  | single hs => exact inputsAscend_all w h _ _ hs
  | tail _ hs ih => exact lt_trans ih (inputsAscend_all w h _ _ hs)

theorem construct_four (freq : List ℚ) :
    (Voice.construct freq 4).IsFourOperator ∧ (Voice.construct freq 4).InputsAscend := by
  refine ⟨⟨rfl, rfl, rfl⟩, ?_⟩
  intro i hi j hj
  have hi4 : i < 4 := hi
  interval_cases i <;> simp [Voice.inputsOf, Voice.construct, List.replicate] at hj

theorem foldl_append_singleton {α β : Type} (f : α → β) (xs : List α) (init : List β) :
    xs.foldl (fun l i => l ++ [f i]) init = init ++ xs.map f := by
  induction xs generalizing init with
  | nil => simp
  | cons x rest ih => simp [ih]

/-- The slot loop of `Voice::evaluate` adds the slot values to `out` and records one
`evaluate` call per slot, in slot order. -/
theorem evaluateSlots_eq (B : OperatorBehaviour) (slots : List Nat) (out : ℚ)
    (log : List Event) :
    Voice.evaluateSlots B slots (out, log) =
      (out + (Voice.slotValuesFrom B slots log).sum, log ++ slots.map Event.evaluate) := by
  induction slots generalizing out log with
  | nil => simp [Voice.evaluateSlots, Voice.slotValuesFrom]
  | cons s rest ih =>
      simp [Voice.evaluateSlots, Voice.slotValuesFrom, ih, add_assoc]

theorem slotValuesFrom_length (B : OperatorBehaviour) (slots : List Nat) (log : List Event) :
    (Voice.slotValuesFrom B slots log).length = slots.length := by
  induction slots generalizing log with
  | nil => rfl
  | cons s rest ih => simp [Voice.slotValuesFrom, ih]

theorem evaluate_state (B : OperatorBehaviour) (v : Voice) :
    (v.evaluate B).2 =
      { v with log := v.log ++ v.slots.map Event.evaluate ++
          (List.range v.operators.length).map Event.postEvaluate } := by
  simp [Voice.evaluate, evaluateSlots_eq, foldl_append_singleton]

theorem evaluate_value (B : OperatorBehaviour) (v : Voice) :
    (v.evaluate B).1 =
      if v.slots.length > 1 then (v.slotValues B).sum / (v.slots.length : ℚ)
      else (v.slotValues B).sum := by
  simp [Voice.evaluate, evaluateSlots_eq, Voice.slotValues]

/-! ## The claims -/

/-- C1 (code at the failing input): `setOperatorArrangement( 10 )` is not rejected
although 10 is no index of an arrangement. On the 4-operator voice brought to the
chain topology 0 by the calls 7, 0 (slot op4, inputs op2<-op1, op3<-op2, op4<-op3)
the call with 10 stores 10, empties the slots and clears every input list. -/
theorem C1_setOperatorArrangement_ten_not_rejected :
    ∃ v, (Voice.construct [] 4).arrange [7, 0] = some v ∧
      v.getNumOperatorArrangements = 10 ∧
      v.operatorArrangement = 0 ∧ v.slots = [3] ∧
      v.operators.map Operator.inputOperators = [[], [0], [1], [2]] ∧
      ∃ w, v.setOperatorArrangement 10 = some w ∧
        w.operatorArrangement = 10 ∧ w.slots = [] ∧
        w.operators.map Operator.inputOperators = [[], [], [], []] := by
  decide

/-- C2 (code at the failing input): one public call, `setOperatorArrangement( 10 )`
on a freshly constructed 4-operator voice, reaches a state in which
`getOperatorArrangement()` equals `getNumOperatorArrangements()`, that is 10,
outside 0..9. -/
theorem C2_arrangement_reaches_ten (B : OperatorBehaviour) :
    ∃ w, (Voice.construct [] 4).run B [Op.setOperatorArrangement 10] = some w ∧
      w.getOperatorArrangement = 10 ∧
      w.getOperatorArrangement = w.getNumOperatorArrangements := by
  refine ⟨_, rfl, ?_, ?_⟩ <;> decide

/-- C3 (code at the failing input): the constructor stores arrangement 0 without
building it, so on a freshly constructed 4-operator voice `setOperatorArrangement( 0 )`
returns at the guard `type == operatorArrangement`: the voice is unchanged, it has
no slot and no operator has a modulation input. -/
theorem C3_fresh_voice_arrangement_zero_unwired (freq : List ℚ) :
    (Voice.construct freq 4).setOperatorArrangement 0 = some (Voice.construct freq 4) ∧
      (Voice.construct freq 4).getOperatorArrangement = 0 ∧
      (Voice.construct freq 4).slots = [] ∧
      (Voice.construct freq 4).operators.map Operator.inputOperators = [[], [], [], []] ∧
      ¬ (Voice.construct freq 4).hasWiring {3} [∅, {0}, {1}, {2}] := by
  refine ⟨rfl, rfl, rfl, rfl, ?_⟩
  intro h
  have h1 : (∅ : Finset Nat) = {3} := h.1
  exact absurd h1 (by decide)

/-- C4 (the claim as stated fails): on a freshly constructed 4-operator voice, whose
arrangement is 0 and not 2, `setOperatorArrangement( 2 )` does not produce the
wiring "op2<-op1, op3<-op2, op4<-{op1,op3}, slots {op4}": op2 (index 1) has no
modulation input. -/
theorem C4_row_two_as_stated_fails :
    (Voice.construct [] 4).IsFourOperator ∧ (Voice.construct [] 4).operatorArrangement ≠ 2 ∧
      ∃ w, (Voice.construct [] 4).setOperatorArrangement 2 = some w ∧
        ¬ w.hasWiring {3} [∅, {0}, {1}, {0, 2}] ∧ w.inputsOf 1 = [] := by
  decide

/-- C4 (amended): for every 4-operator voice state whose arrangement is not 2,
`setOperatorArrangement( 2 )` returns with arrangement 2, slots exactly {op4}
(index 3), op3 (index 2) modulated by exactly op2 (index 1), op4 (index 3) modulated
by exactly op1 and op3 (indices 0 and 2), and op1 and op2 without modulation
inputs. -/
theorem C4_arrangement_two_wiring (v : Voice) (h : v.IsFourOperator)
    (hne : v.operatorArrangement ≠ 2) :
    ∃ w, v.setOperatorArrangement 2 = some w ∧ w.operatorArrangement = 2 ∧
      w.hasWiring {3} [∅, ∅, {1}, {0, 2}] := by
  have hc : ∃ c, Voice.canon.setOperatorArrangement 2 = some c ∧
      c.operatorArrangement = 2 ∧ c.hasWiring {3} [∅, ∅, {1}, {0, 2}] := by decide
  obtain ⟨c, hc, harr, hwire⟩ := hc
  rw [setOperatorArrangement_canon v h 2 (Ne.symm hne) (by decide) (by decide), hc]
  exact ⟨v.rewire c, rfl, harr, hwire⟩

/-- C4 (witness): the amended statement at a freshly constructed 4-operator voice. -/
theorem C4_arrangement_two_wiring_witness :
    (Voice.construct [] 4).IsFourOperator ∧ (Voice.construct [] 4).operatorArrangement ≠ 2 ∧
      ∃ w, (Voice.construct [] 4).setOperatorArrangement 2 = some w ∧
        w.operatorArrangement = 2 ∧ w.hasWiring {3} [∅, ∅, {1}, {0, 2}] :=
  ⟨by decide, by decide, C4_arrangement_two_wiring (Voice.construct [] 4) (by decide) (by decide)⟩

/-- C5 (code at the failing input): the description of arrangement 3 is "(1>2)+3>4",
yet on a freshly constructed 4-operator voice `setOperatorArrangement( 3 )` gives
op1 (index 0) as the input of op3 (index 2), not of op2 (index 1): op2 has no
modulation input, op3 has exactly op1, op4 has op3 and op2, slots are {op4}. -/
theorem C5_arrangement_three_feeds_op3_from_op1 :
    ∃ w, (Voice.construct [] 4).setOperatorArrangement 3 = some w ∧
      w.getOperatorArrangementDescription 3 = some "(1>2)+3>4" ∧
      w.slots = [3] ∧
      w.operators.map Operator.inputOperators = [[], [], [0], [2, 1]] ∧
      w.hasWiring {3} [∅, ∅, {0}, {1, 2}] ∧
      ¬ w.hasWiring {3} [∅, {0}, ∅, {1, 2}] := by
  decide

/-- C6: for every t in {0, 1, 4, 5, 6, 7, 8, 9} and every 4-operator voice state whose
arrangement differs from t, `setOperatorArrangement( t )` returns with arrangement
t and with the slot set and the modulation-input set of each of op1..op4 (indices
0..3) of table row t. -/
theorem C6_arrangement_table_rows (v : Voice) (h : v.IsFourOperator) (t : Int)
    (ht : t ∈ [0, 1, 4, 5, 6, 7, 8, 9]) (hne : v.operatorArrangement ≠ t) :
    ∃ w, v.setOperatorArrangement t = some w ∧ w.operatorArrangement = t ∧
      (t = 0 → w.hasWiring {3} [∅, {0}, {1}, {2}]) ∧
      (t = 1 → w.hasWiring {3} [∅, ∅, {0, 1}, {2}]) ∧
      (t = 4 → w.hasWiring {1, 3} [∅, {0}, ∅, {2}]) ∧
      (t = 5 → w.hasWiring {1, 2, 3} [∅, {0}, {0}, {0}]) ∧
      (t = 6 → w.hasWiring {1, 2, 3} [∅, {0}, ∅, ∅]) ∧
      (t = 7 → w.hasWiring {0, 1, 2, 3} [∅, ∅, ∅, ∅]) ∧
      (t = 8 → w.hasWiring {1} [∅, {0}, ∅, ∅]) ∧
      (t = 9 → w.hasWiring {0} [∅, ∅, ∅, ∅]) := by
  have hc : ∀ n < 10, ∃ c, Voice.canon.setOperatorArrangement (n : Nat) = some c ∧
      c.operatorArrangement = (n : Nat) ∧
      (n = 0 → c.hasWiring {3} [∅, {0}, {1}, {2}]) ∧
      (n = 1 → c.hasWiring {3} [∅, ∅, {0, 1}, {2}]) ∧
      (n = 4 → c.hasWiring {1, 3} [∅, {0}, ∅, {2}]) ∧
      (n = 5 → c.hasWiring {1, 2, 3} [∅, {0}, {0}, {0}]) ∧
      (n = 6 → c.hasWiring {1, 2, 3} [∅, {0}, ∅, ∅]) ∧
      (n = 7 → c.hasWiring {0, 1, 2, 3} [∅, ∅, ∅, ∅]) ∧
      (n = 8 → c.hasWiring {1} [∅, {0}, ∅, ∅]) ∧
      (n = 9 → c.hasWiring {0} [∅, ∅, ∅, ∅]) := by decide
  have hb : 0 ≤ t ∧ t < 10 := by
    simp only [List.mem_cons, List.mem_singleton, List.not_mem_nil, or_false] at ht
    omega
  obtain ⟨c, hcs, harr, r0, r1, r4, r5, r6, r7, r8, r9⟩ := hc t.toNat (by omega)
  rw [Int.toNat_of_nonneg hb.1] at hcs harr
  have hn : ∀ k : Nat, t = (k : Int) → t.toNat = k := by intro k hk; omega
  rw [setOperatorArrangement_canon v h t (Ne.symm hne) hb.1 (by omega), hcs]
  exact ⟨v.rewire c, rfl, harr,
    fun e => r0 (hn 0 e), fun e => r1 (hn 1 e), fun e => r4 (hn 4 e), fun e => r5 (hn 5 e),
    fun e => r6 (hn 6 e), fun e => r7 (hn 7 e), fun e => r8 (hn 8 e), fun e => r9 (hn 9 e)⟩

/-- C6 (witness): row 4 on the chain-wired example voice, whose arrangement is 0. -/
theorem C6_arrangement_table_rows_witness :
    Voice.chainExample.IsFourOperator ∧ Voice.chainExample.operatorArrangement ≠ 4 ∧
      ∃ w, Voice.chainExample.setOperatorArrangement 4 = some w ∧ w.operatorArrangement = 4 ∧
        w.hasWiring {1, 3} [∅, {0}, ∅, {2}] := by
  obtain ⟨w, hw, harr, _, _, r4, _⟩ :=
    C6_arrangement_table_rows Voice.chainExample (by decide) 4 (by decide) (by decide)
  exact ⟨by decide, by decide, w, hw, harr, r4 rfl⟩

/-- C7: switching topology leaves no residual wiring. Two 4-operator voice states
with arbitrary prior slots and input lists, given the same in-range index t that
differs from the arrangement of each, end with identical slots and identical
modulation-input lists; and on every 4-operator voice state `v`, after
`setOperatorArrangement( 7 )` then `setOperatorArrangement( 9 )` the slots are
exactly operator 0 and no operator, operator 0 included, has a modulation input. -/
theorem C7_no_residual_wiring (v1 v2 : Voice) (h1 : v1.IsFourOperator)
    (h2 : v2.IsFourOperator) (t : Int) (h0 : 0 ≤ t) (h10 : t < 10)
    (ht1 : t ≠ v1.operatorArrangement) (ht2 : t ≠ v2.operatorArrangement)
    (v : Voice) (h : v.IsFourOperator) :
    (∃ w1 w2, v1.setOperatorArrangement t = some w1 ∧ v2.setOperatorArrangement t = some w2 ∧
      w1.operatorArrangement = t ∧ w2.operatorArrangement = t ∧
      w1.slots = w2.slots ∧ w1.operators = w2.operators) ∧
    (∃ u w, v.setOperatorArrangement 7 = some u ∧ u.setOperatorArrangement 9 = some w ∧
      w.slots = [0] ∧ w.inputsOf 0 = [] ∧
      w.operators.map Operator.inputOperators = [[], [], [], []]) := by
  constructor
  · obtain ⟨c, hc, _, _, harr⟩ := canon_arrangements t.toNat (by omega)
    rw [Int.toNat_of_nonneg h0] at hc harr
    refine ⟨v1.rewire c, v2.rewire c, ?_, ?_, harr, harr, rfl, rfl⟩
    · rw [setOperatorArrangement_canon v1 h1 t ht1 h0 (by omega), hc]; rfl
    · rw [setOperatorArrangement_canon v2 h2 t ht2 h0 (by omega), hc]; rfl
  · have h7 : ∃ u, v.setOperatorArrangement 7 = some u ∧ u.IsFourOperator ∧
        u.operatorArrangement = 7 := by
      by_cases e : (7 : Int) = v.operatorArrangement
      · exact ⟨v, setOperatorArrangement_rejected v 7 (Or.inr (Or.inr e)), h, e.symm⟩
      · obtain ⟨c, hc, hlen, _, harr⟩ := canon_arrangements 7 (by decide)
        refine ⟨v.rewire c, ?_, rewire_isFourOperator v c h hlen, harr⟩
        rw [setOperatorArrangement_canon v h 7 e (by decide) (by decide)]
        exact congrArg (Option.map v.rewire) hc
    obtain ⟨u, hu, hu4, hu7⟩ := h7
    have h9 : ∃ c, Voice.canon.setOperatorArrangement 9 = some c ∧ c.slots = [0] ∧
        c.inputsOf 0 = [] ∧ c.operators.map Operator.inputOperators = [[], [], [], []] := by
      decide
    obtain ⟨c, hc, hs, hi, ho⟩ := h9
    refine ⟨u, u.rewire c, hu, ?_, hs, hi, ho⟩
    rw [setOperatorArrangement_canon u hu4 9 (by rw [hu7]; decide) (by decide) (by decide), hc]
    rfl

/-- C7 (witness): a freshly constructed voice (no wiring) and the chain-wired
example voice, both switched to topology 5; the 7-then-9 sequence on the chain-wired
voice. -/
theorem C7_no_residual_wiring_witness :
    (Voice.construct [] 4).operators ≠ Voice.chainExample.operators ∧
      (Voice.construct [] 4).slots ≠ Voice.chainExample.slots ∧
      (∃ w1 w2, (Voice.construct [] 4).setOperatorArrangement 5 = some w1 ∧
        Voice.chainExample.setOperatorArrangement 5 = some w2 ∧
        w1.operatorArrangement = 5 ∧ w2.operatorArrangement = 5 ∧
        w1.slots = w2.slots ∧ w1.operators = w2.operators) ∧
      (∃ u w, Voice.chainExample.setOperatorArrangement 7 = some u ∧
        u.setOperatorArrangement 9 = some w ∧
        w.slots = [0] ∧ w.inputsOf 0 = [] ∧
        w.operators.map Operator.inputOperators = [[], [], [], []]) :=
  ⟨by decide, by decide,
    C7_no_residual_wiring (Voice.construct [] 4) Voice.chainExample (by decide) (by decide) 5
      (by decide) (by decide) (by decide) (by decide) Voice.chainExample (by decide)⟩

/-- C8: the modulation graph is never cyclic. From a freshly constructed 4-operator
voice every sequence of `setOperatorArrangement` calls, with any integer arguments,
returns, and in the state reached every modulation input of an operator has a
strictly lower index than the operator; hence through modulation inputs no operator
is reachable from itself. -/
theorem C8_modulation_graph_acyclic (freq : List ℚ) (types : List Int) :
    ∃ w, (Voice.construct freq 4).arrange types = some w ∧
      (∀ i j, w.modulates j i → j < i) ∧
      (∀ i, ¬ Relation.TransGen w.modulates i i) := by
  obtain ⟨w, hw, _, hasc⟩ := arrange_preserves types (Voice.construct freq 4) (construct_four freq)
  exact ⟨w, hw, fun i j hj => inputsAscend_all w hasc i j hj,
    fun i hi => lt_irrefl i (modulates_chain_ascends w hasc i i hi)⟩

/-- C9: with v_1..v_k the values returned by one `evaluate()` call on each slot
operator in slot order (`slotValues`, k the number of slots), `Voice::evaluate`
makes exactly these calls and returns 0 when k = 0, v_1 when k = 1 and
(v_1 + ... + v_k) / k when k > 1. For a 4-operator voice state `u` switched to
topology 4 the output is the arithmetic mean of the value of op4 (index 3,
evaluated first) and the value of op2 (index 1). -/
theorem C9_evaluate_mixes_slots (B : OperatorBehaviour) (v u : Voice)
    (h : u.IsFourOperator) (hne : u.operatorArrangement ≠ 4) :
    (v.slotValues B).length = v.slots.length ∧
    (Voice.evaluateSlots B v.slots (0, v.log)).2 = v.log ++ v.slots.map Event.evaluate ∧
    (v.evaluate B).1 =
      (match v.slotValues B with
        | [] => 0
        | [v1] => v1
        | vs => vs.sum / (vs.length : ℚ)) ∧
    (∃ w, u.setOperatorArrangement 4 = some w ∧ w.slots = [3, 1] ∧
      w.slotValues B = [B.evaluate w.log 3, B.evaluate (w.log ++ [Event.evaluate 3]) 1] ∧
      (w.evaluate B).1 =
        (B.evaluate w.log 3 + B.evaluate (w.log ++ [Event.evaluate 3]) 1) / 2) := by
  refine ⟨slotValuesFrom_length B v.slots v.log, ?_, ?_, ?_⟩
  · rw [evaluateSlots_eq]
  · rw [evaluate_value]
    have hlen := slotValuesFrom_length B v.slots v.log
    unfold Voice.slotValues at *
    generalize Voice.slotValuesFrom B v.slots v.log = vals at hlen
    match vals, hlen with
    | [], hl => simp [← hl]
    | [x], hl => simp [← hl]
    | x :: y :: rest, hl => simp [← hl]
  · have hc : ∃ c, Voice.canon.setOperatorArrangement 4 = some c ∧ c.slots = [3, 1] := by
      decide
    obtain ⟨c, hc, hs⟩ := hc
    have hw : (u.rewire c).slots = [3, 1] := hs
    refine ⟨u.rewire c, ?_, hw, ?_, ?_⟩
    · rw [setOperatorArrangement_canon u h 4 (Ne.symm hne) (by decide) (by decide), hc]; rfl
    · simp [Voice.slotValues, hw, Voice.slotValuesFrom]
    · rw [evaluate_value]
      simp [Voice.slotValues, hw, Voice.slotValuesFrom]

/-- C9 (witness): the chain-wired example voice (one slot, op4, value 4) and the
same voice switched to topology 4, where op4 gives 4 and op2 gives 2: the output
is their mean 3. -/
theorem C9_evaluate_mixes_slots_witness :
    (Voice.chainExample.evaluate OperatorBehaviour.sample).1 = 4 ∧
    ∃ w, Voice.chainExample.setOperatorArrangement 4 = some w ∧
      (w.evaluate OperatorBehaviour.sample).1 = 3 := by
  have hw := C9_evaluate_mixes_slots OperatorBehaviour.sample Voice.chainExample
    Voice.chainExample (by decide) (by decide)
  obtain ⟨_, _, h1, w, hw, _, _, h2⟩ := hw
  refine ⟨?_, w, hw, ?_⟩
  · rw [h1]; simp [Voice.slotValues, Voice.chainExample, Voice.slotValuesFrom, Voice.construct,
      OperatorBehaviour.sample]; norm_num
  · rw [h2]; simp [OperatorBehaviour.sample]; norm_num

/-- C10: one call of `Voice::evaluate` adds to the call history first one `evaluate`
call per slot, then one `postEvaluate` call per owned operator: `postEvaluate` is
called exactly once on every owned operator (slot or not, wired or not), on no
other index, and every such call comes after all the slot `evaluate` calls;
note, arrangement, slots and the operators with their modulation-input lists are
unchanged. -/
theorem C10_evaluate_postEvaluates_all (B : OperatorBehaviour) (v : Voice) :
    ∃ evs posts, (v.evaluate B).2.log = v.log ++ evs ++ posts ∧
      evs = v.slots.map Event.evaluate ∧
      posts = (List.range v.operators.length).map Event.postEvaluate ∧
      (∀ i, i < v.operators.length → posts.count (Event.postEvaluate i) = 1) ∧
      (∀ i, ¬ i < v.operators.length → posts.count (Event.postEvaluate i) = 0) ∧
      (∀ i, evs.count (Event.postEvaluate i) = 0) ∧
      (∀ s, posts.count (Event.evaluate s) = 0) ∧
      (v.evaluate B).2 = { v with log := (v.evaluate B).2.log } ∧
      (v.evaluate B).2.note = v.note ∧
      (v.evaluate B).2.operatorArrangement = v.operatorArrangement ∧
      (v.evaluate B).2.slots = v.slots ∧
      (v.evaluate B).2.operators = v.operators := by
  have hinj : Function.Injective Event.postEvaluate := fun a b e => by injection e
  refine ⟨_, _, ?_, rfl, rfl, ?_, ?_, ?_, ?_, ?_, ?_, ?_, ?_, ?_⟩
  · rw [evaluate_state]
  · intro i hi
    exact List.count_eq_one_of_mem ((List.nodup_range _).map hinj)
      (List.mem_map.mpr ⟨i, List.mem_range.mpr hi, rfl⟩)
  · intro i hi
    apply List.count_eq_zero_of_not_mem
    intro hm
    obtain ⟨k, hk, e⟩ := List.mem_map.mp hm
    exact hi (by rw [← hinj e]; exact List.mem_range.mp hk)
  · intro i
    apply List.count_eq_zero_of_not_mem
    intro hm
    obtain ⟨k, _, e⟩ := List.mem_map.mp hm
    cases e
  · intro s
    apply List.count_eq_zero_of_not_mem
    intro hm
    obtain ⟨k, _, e⟩ := List.mem_map.mp hm
    cases e
  all_goals rw [evaluate_state]

/-- C10 (witness): on the chain-wired example voice one sample records the slot
call on op4 and then one `postEvaluate` on each of the four operators; operator 0,
which is no slot, gets exactly one. -/
theorem C10_evaluate_postEvaluates_all_witness :
    ∃ posts, (Voice.chainExample.evaluate OperatorBehaviour.sample).2.log =
        Voice.chainExample.log ++ [Event.evaluate 3] ++ posts ∧
      posts = [Event.postEvaluate 0, Event.postEvaluate 1, Event.postEvaluate 2,
        Event.postEvaluate 3] ∧
      posts.count (Event.postEvaluate 0) = 1 := by
  obtain ⟨evs, posts, hlog, he, hp, hc, _⟩ :=
    C10_evaluate_postEvaluates_all OperatorBehaviour.sample Voice.chainExample
  subst he
  refine ⟨posts, hlog, ?_, hc 0 (by decide)⟩
  rw [hp]; rfl

/-! ## Lemmas on the note and query methods -/

theorem count_map_of_injective_range {β : Type} [DecidableEq β] (f : Nat → β)
    (hf : Function.Injective f) (n i : Nat) (hi : i < n) :
    ((List.range n).map f).count (f i) = 1 :=
  List.count_eq_one_of_mem ((List.nodup_range n).map hf)
    (List.mem_map.mpr ⟨i, List.mem_range.mpr hi, rfl⟩)

/-- Once `playing` is true the loop of `Voice::isPlaying` asks nobody and stays true. -/
theorem isPlayingLoop_true (B : OperatorBehaviour) (slots : List Nat) (log : List Event) :
    Voice.isPlayingLoop B slots (true, log) = (true, log) := by
  induction slots with
  | nil => rfl
  | cons s rest ih => simp [Voice.isPlayingLoop, ih]

/-- The loop of `Voice::isPlaying` returns true exactly when one of the slot
operators, asked in turn, reports true. -/
theorem isPlayingLoop_eq_any (B : OperatorBehaviour) (slots : List Nat) (log : List Event) :
    (Voice.isPlayingLoop B slots (false, log)).1 = (Voice.slotReportsFrom B slots log).any id := by
  induction slots generalizing log with
  | nil => rfl
  | cons s rest ih =>
      cases hb : B.isPlaying log s with
      | true => simp [Voice.isPlayingLoop, Voice.slotReportsFrom, hb, isPlayingLoop_true]
      | false => simp [Voice.isPlayingLoop, Voice.slotReportsFrom, hb, ih]

/-- When asking is a pure query, the reports are the statuses at the start. -/
theorem slotReportsFrom_query (B : OperatorBehaviour) (hq : B.IsPlayingIsQuery)
    (slots : List Nat) (log : List Event) :
    Voice.slotReportsFrom B slots log = slots.map (B.isPlaying log) := by
  induction slots generalizing log with
  | nil => rfl
  | cons s rest ih =>
      have hfun : B.isPlaying (log ++ [Event.isPlaying s]) = B.isPlaying log :=
        funext (fun x => hq log s x)
      simp [Voice.slotReportsFrom, ih, hfun]

/-- C11: for every voice state and every integer n with n < 0 or n > 127,
`noteOn( n )` returns with the voice exactly as it was: `getNote()` gives the same
value as before and the call history is unchanged, so the frequency table is not
read and no operator receives a `noteOn` call. -/
theorem C11_noteOn_out_of_range_ignored (v : Voice) (n : Int) (h : n < 0 ∨ n > 127) :
    ∃ w, v.noteOn n = some w ∧ w = v ∧ w.getNote = v.getNote ∧ w.log = v.log ∧
      (∀ k, Event.frequencyTableRead k ∉ w.log.drop v.log.length) ∧
      (∀ i f, Event.noteOn i f ∉ w.log.drop v.log.length) := by
  refine ⟨v, by simp [Voice.noteOn, h], rfl, rfl, rfl, ?_, ?_⟩ <;> simp

/-- C11 (witness): `noteOn( -1 )` and `noteOn( 128 )` on the example voice that is
playing note 60 leave `getNote()` at 60. -/
theorem C11_noteOn_out_of_range_ignored_witness :
    (∃ w, Voice.chainExample.noteOn (-1) = some w ∧ w = Voice.chainExample ∧ w.getNote = 60) ∧
    (∃ w, Voice.chainExample.noteOn 128 = some w ∧ w = Voice.chainExample ∧ w.getNote = 60) := by
  obtain ⟨w1, h1, e1, n1, _⟩ :=
    C11_noteOn_out_of_range_ignored Voice.chainExample (-1) (by decide)
  obtain ⟨w2, h2, e2, n2, _⟩ :=
    C11_noteOn_out_of_range_ignored Voice.chainExample 128 (by decide)
  exact ⟨⟨w1, h1, e1, n1⟩, ⟨w2, h2, e2, n2⟩⟩

/-- C12: for every voice state and every n with 0 <= n <= 127 whose entry
`frequencyTable[ n ]` exists (the table is indexable 0..127), `noteOn( n )` returns,
`getNote()` is n afterwards, the table is read once at n, and the calls added are
one `noteOn` per owned operator, each with the frequency `frequencyTable[ n ]`:
every owned operator gets exactly one, with that argument. The frequency table,
arrangement, slots and the operators with their modulation inputs are unchanged. -/
theorem C12_noteOn_forwards_frequency (v : Voice) (n : Int) (h0 : 0 ≤ n) (h127 : n ≤ 127)
    (htable : n.toNat < v.frequencyTable.length) :
    ∃ w frequency calls, v.frequencyTable[n.toNat]? = some frequency ∧
      v.noteOn n = some w ∧ w.getNote = n ∧
      w.log = v.log ++ [Event.frequencyTableRead n.toNat] ++ calls ∧
      calls = (List.range v.operators.length).map (fun i => Event.noteOn i frequency) ∧
      (∀ i, i < v.operators.length → calls.count (Event.noteOn i frequency) = 1) ∧
      (∀ i f, Event.noteOn i f ∈ calls → f = frequency ∧ i < v.operators.length) ∧
      w.frequencyTable = v.frequencyTable ∧
      w.operatorArrangement = v.operatorArrangement ∧
      w.slots = v.slots ∧ w.operators = v.operators := by
  have hg : ¬ (n < 0 ∨ n > 127) := by omega
  have hf : v.frequencyTable[n.toNat]? = some (v.frequencyTable[n.toNat]) :=
    List.getElem?_eq_getElem htable
  have hinj : Function.Injective (fun i => Event.noteOn i (v.frequencyTable[n.toNat])) :=
    fun a b e => by injection e
  refine ⟨{ v with
      note := n
      log := v.log ++ [Event.frequencyTableRead n.toNat] ++
        (List.range v.operators.length).map (fun i => Event.noteOn i (v.frequencyTable[n.toNat])) },
    v.frequencyTable[n.toNat], _, hf, ?_, rfl, rfl, rfl, ?_, ?_, rfl, rfl, rfl, rfl⟩
  · simp only [Voice.noteOn, hg, if_false, hf, foldl_append_singleton]
  · intro i hi
    exact count_map_of_injective_range _ hinj _ i hi
  · intro i f hm
    obtain ⟨k, hk, e⟩ := List.mem_map.mp hm
    injection e with e1 e2
    exact ⟨e2.symm, by rw [← e1]; exact List.mem_range.mp hk⟩

/-- C12 (witness): the bounds 0 and 127 on a freshly constructed 4-operator voice
with the 128-entry example table. -/
theorem C12_noteOn_forwards_frequency_witness :
    (∃ w, (Voice.construct sampleFrequencyTable 4).noteOn 0 = some w ∧ w.getNote = 0) ∧
    (∃ w, (Voice.construct sampleFrequencyTable 4).noteOn 127 = some w ∧ w.getNote = 127) := by
  have hlen : sampleFrequencyTable.length = 128 := by
    simp only [sampleFrequencyTable, List.length_map, List.length_range]
  obtain ⟨w1, _, _, _, h1, n1, _⟩ :=
    C12_noteOn_forwards_frequency (Voice.construct sampleFrequencyTable 4) 0 (by decide)
      (by decide) (by show (0 : Int).toNat < sampleFrequencyTable.length; rw [hlen]; decide)
  obtain ⟨w2, _, _, _, h2, n2, _⟩ :=
    C12_noteOn_forwards_frequency (Voice.construct sampleFrequencyTable 4) 127 (by decide)
      (by decide) (by show (127 : Int).toNat < sampleFrequencyTable.length; rw [hlen]; decide)
  exact ⟨⟨w1, h1, n1⟩, ⟨w2, h2, n2⟩⟩

/-- C13: for every voice state, after `noteOff()` `getNote()` is the not-playing
value -1, the value a freshly constructed voice reports; the calls added are one
`noteOff` per owned operator, so every owned operator gets exactly one; arrangement,
slots and the operators with their modulation inputs are unchanged. -/
theorem C13_noteOff_clears_note (v : Voice) (freq : List ℚ) (numOps : Int) :
    v.noteOff.getNote = -1 ∧ (Voice.construct freq numOps).getNote = -1 ∧
      (∃ calls, v.noteOff.log = v.log ++ calls ∧
        calls = (List.range v.operators.length).map Event.noteOff ∧
        (∀ i, i < v.operators.length → calls.count (Event.noteOff i) = 1) ∧
        (∀ i, Event.noteOff i ∈ calls → i < v.operators.length)) ∧
      v.noteOff.operatorArrangement = v.operatorArrangement ∧
      v.noteOff.slots = v.slots ∧ v.noteOff.operators = v.operators := by
  have hinj : Function.Injective Event.noteOff := fun a b e => by injection e
  refine ⟨rfl, rfl, ⟨_, ?_, rfl, ?_, ?_⟩, rfl, rfl, rfl⟩
  · simp [Voice.noteOff, foldl_append_singleton]
  · intro i hi
    exact count_map_of_injective_range _ hinj _ i hi
  · intro i hm
    obtain ⟨k, hk, e⟩ := List.mem_map.mp hm
    rw [← hinj e]; exact List.mem_range.mp hk

/-- C13 (witness): `noteOff()` on the example voice that is playing note 60. -/
theorem C13_noteOff_clears_note_witness :
    Voice.chainExample.getNote = 60 ∧ Voice.chainExample.noteOff.getNote = -1 ∧
      Voice.chainExample.noteOff.log = Voice.chainExample.log ++
        [Event.noteOff 0, Event.noteOff 1, Event.noteOff 2, Event.noteOff 3] := by
  obtain ⟨h1, _, ⟨calls, hlog, hcalls, _⟩, _⟩ :=
    C13_noteOff_clears_note Voice.chainExample [] 4
  refine ⟨by decide, h1, ?_⟩
  rw [hlog, hcalls]; rfl

/-- C14: `Voice::isPlaying` returns true if and only if at least one slot operator,
asked in slot order, reports that it is playing; a voice with no slots reports
false; two voice states with the same reports of their slot operators give the same
result, whatever the operators outside the slots report. When asking is a pure
query the reports are the statuses `isPlaying log s` of the slot operators `s` at
the time of the call, and two states that agree on slots and on these statuses
agree on the result. Only the call history of the voice changes. -/
theorem C14_isPlaying_iff_some_slot_plays (B B2 : OperatorBehaviour) (v v2 : Voice) :
    ((v.isPlaying B).1 = true ↔ true ∈ v.slotReports B) ∧
    (v.slots = [] → (v.isPlaying B).1 = false) ∧
    (v.slotReports B = v2.slotReports B2 → (v.isPlaying B).1 = (v2.isPlaying B2).1) ∧
    (B.IsPlayingIsQuery →
      ((v.isPlaying B).1 = true ↔ ∃ s ∈ v.slots, B.isPlaying v.log s = true)) ∧
    (B.IsPlayingIsQuery → B2.IsPlayingIsQuery → v.slots = v2.slots →
      (∀ s ∈ v.slots, B.isPlaying v.log s = B2.isPlaying v2.log s) →
      (v.isPlaying B).1 = (v2.isPlaying B2).1) ∧
    (v.isPlaying B).2 = { v with log := (v.isPlaying B).2.log } := by
  have hval : ∀ (C : OperatorBehaviour) (u : Voice),
      (u.isPlaying C).1 = (u.slotReports C).any id := fun C u =>
    isPlayingLoop_eq_any C u.slots u.log
  refine ⟨?_, ?_, ?_, ?_, ?_, rfl⟩
  · rw [hval]; simp
  · intro hs; rw [hval]; simp [Voice.slotReports, hs, Voice.slotReportsFrom]
  · intro he; rw [hval, hval, he]
  · intro hq
    rw [hval, Voice.slotReports, slotReportsFrom_query B hq]
    simp
  · intro hq hq2 hs hagree
    rw [hval, hval, Voice.slotReports, Voice.slotReports, slotReportsFrom_query B hq,
      slotReportsFrom_query B2 hq2, ← hs]
    congr 1
    exact List.map_congr_left hagree

/-- C14 (witness): with the example behaviour (only op1 plays) the chain-wired voice,
whose only slot is op4, is not playing although op1 is; switched to topology 7,
where op1 is a slot, it is playing. -/
theorem C14_isPlaying_iff_some_slot_plays_witness :
    (Voice.chainExample.isPlaying OperatorBehaviour.sample).1 = false ∧
    OperatorBehaviour.sample.isPlaying Voice.chainExample.log 0 = true ∧
    ∃ w, Voice.chainExample.setOperatorArrangement 7 = some w ∧
      (w.isPlaying OperatorBehaviour.sample).1 = true := by
  have hq : OperatorBehaviour.sample.IsPlayingIsQuery := fun _ _ _ => rfl
  have hw : ∃ w, Voice.chainExample.setOperatorArrangement 7 = some w ∧ 0 ∈ w.slots := by
    decide
  obtain ⟨w, hw, h0⟩ := hw
  have h1 := (C14_isPlaying_iff_some_slot_plays OperatorBehaviour.sample
    OperatorBehaviour.sample Voice.chainExample w).2.2.2.1 hq
  have h2 := (C14_isPlaying_iff_some_slot_plays OperatorBehaviour.sample
    OperatorBehaviour.sample w w).2.2.2.1 hq
  refine ⟨?_, rfl, w, hw, h2.mpr ⟨0, h0, rfl⟩⟩
  cases hb : (Voice.chainExample.isPlaying OperatorBehaviour.sample).1 with
  | false => rfl
  | true =>
      obtain ⟨s, hs, hp⟩ := h1.mp hb
      have hs3 : s = 3 := by simpa [Voice.chainExample] using hs
      subst hs3
      simp [OperatorBehaviour.sample] at hp

/-! ## Frame and totality lemmas -/

theorem sameFixed_refl (v : Voice) : v.SameFixed v := ⟨rfl, rfl, rfl, rfl, rfl⟩

theorem sameFixed_trans {u v w : Voice} (h1 : u.SameFixed v) (h2 : v.SameFixed w) :
    u.SameFixed w :=
  ⟨h2.1.trans h1.1, h2.2.1.trans h1.2.1, h2.2.2.1.trans h1.2.2.1,
    h2.2.2.2.1.trans h1.2.2.2.1, h2.2.2.2.2.trans h1.2.2.2.2⟩

theorem pushSlot_fixed (v w : Voice) (i : Nat) (h : v.pushSlot i = some w) :
    v.SameFixed w := by
  unfold Voice.pushSlot at h
  split at h
  · cases h
  · cases h; exact ⟨rfl, rfl, rfl, rfl, rfl⟩

theorem addInput_fixed (v w : Voice) (i j : Nat) (h : v.addInput i j = some w) :
    v.SameFixed w := by
  unfold Voice.addInput at h
  split at h
  · cases h; exact ⟨rfl, rfl, by simp, rfl, rfl⟩
  · cases h

theorem bind_fixed (v : Voice) (x : Option Voice) (g : Voice → Option Voice) (w : Voice)
    (hx : ∀ u, x = some u → v.SameFixed u) (hg : ∀ u y, g u = some y → u.SameFixed y)
    (h : x.bind g = some w) : v.SameFixed w := by
  obtain ⟨u, hu, hw⟩ := Option.bind_eq_some.mp h
  exact sameFixed_trans (hx u hu) (hg u w hw)

theorem chainLoop_fixed (i : Nat) : ∀ v w, Voice.chainLoop i v = some w → v.SameFixed w := by
  induction i with
  | zero => intro v w h; cases h; exact sameFixed_refl v
  | succ k ih =>
      intro v w h
      exact bind_fixed v _ _ w (fun u hu => addInput_fixed v u (k + 1) k hu) ih h

/-- One `push_back` of operator `i` followed by one `addInputOperator` on it. -/
theorem push_add_fixed (v w : Voice) (i a b : Nat)
    (h : (v.pushSlot i).bind (fun p => p.addInput a b) = some w) : v.SameFixed w :=
  bind_fixed v _ _ w (fun u hu => pushSlot_fixed v u i hu)
    (fun u y hy => addInput_fixed u y a b hy) h

/-- One `push_back` followed by three `addInputOperator` calls (cases 1, 2, 3). -/
theorem push_add3_fixed (v w : Voice) (i a b c d e f : Nat)
    (h : (v.pushSlot i).bind (fun p => (p.addInput a b).bind (fun q =>
      (q.addInput c d).bind (fun r => r.addInput e f))) = some w) : v.SameFixed w :=
  bind_fixed v _ _ w (fun u hu => pushSlot_fixed v u i hu)
    (fun u y hy => bind_fixed u _ _ y (fun p hp => addInput_fixed u p a b hp)
      (fun p z hz => bind_fixed p _ _ z (fun q hq => addInput_fixed p q c d hq)
        (fun q r hr => addInput_fixed q r e f hr) hz) hy) h

theorem pairLoop_fixed (i : Nat) : ∀ v w, Voice.pairLoop i v = some w → v.SameFixed w := by
  induction i using Nat.strong_induction_on with
  | _ i ih =>
      intro v w h
      match i, ih, h with
      | 0, _, h => cases h; exact sameFixed_refl v
      | 1, _, h => exact push_add_fixed v w 1 1 0 h
      | k + 2, ih, h =>
          exact bind_fixed v _ _ w (fun u hu => pushSlot_fixed v u (k + 2) hu)
            (fun u y hy => bind_fixed u _ _ y
              (fun p hp => addInput_fixed u p (k + 2) (k + 1) hp) (ih k (by omega)) hy) h

theorem foldlM_fixed {α : Type} (g : Voice → α → Option Voice)
    (hg : ∀ v a w, g v a = some w → v.SameFixed w) (xs : List α) :
    ∀ v w, xs.foldlM g v = some w → v.SameFixed w := by
  induction xs with
  | nil => intro v w h; cases h; exact sameFixed_refl v
  | cons a rest ih =>
      intro v w h
      rw [List.foldlM_cons] at h
      obtain ⟨u, hu, hw⟩ := Option.bind_eq_some.mp h
      exact sameFixed_trans (hg v a u hu) (ih u w hw)

theorem fanLoop_fixed (v w : Voice) (h : v.fanLoop = some w) : v.SameFixed w :=
  foldlM_fixed (fun x i => (x.pushSlot i).bind (fun x1 => x1.addInput i 0))
    (fun a i b hb => push_add_fixed a b i i 0 hb) _ v w h

theorem slotLoop_fixed (first : Nat) (v w : Voice) (h : v.slotLoop first = some w) :
    v.SameFixed w :=
  foldlM_fixed (fun x i => x.pushSlot i) (fun a i b hb => pushSlot_fixed a b i hb) _ v w h

/-- No call of `setOperatorArrangement` changes a member fixed by the constructor,
for a voice of any size. -/
theorem setOperatorArrangement_fixed (v w : Voice) (t : Int)
    (h : v.setOperatorArrangement t = some w) : v.SameFixed w := by
  unfold Voice.setOperatorArrangement at h
  by_cases hg : t < 0 ∨ t > v.numOperatorArrangements ∨ t = v.operatorArrangement
  · rw [if_pos hg] at h; cases h; exact sameFixed_refl v
  · rw [if_neg hg] at h
    dsimp only at h
    generalize hv0 : Voice.resetAll _ = v0 at h
    have h0 : v.SameFixed v0 := by
      rw [← hv0]; exact ⟨rfl, rfl, by simp [Voice.resetAll], rfl, rfl⟩
    refine sameFixed_trans h0 ?_
    by_cases c0 : t = 0
    · rw [if_pos c0] at h
      by_cases hl : v0.operators.length = 0
      · rw [if_pos hl] at h; cases h
      · rw [if_neg hl] at h
        exact bind_fixed v0 _ _ w (fun u hu => pushSlot_fixed v0 u _ hu)
          (fun u y hy => chainLoop_fixed _ u y hy) h
    rw [if_neg c0] at h
    by_cases c1 : t = 1
    · rw [if_pos c1] at h; exact push_add3_fixed v0 w _ _ _ _ _ _ _ h
    rw [if_neg c1] at h
    by_cases c2 : t = 2
    · rw [if_pos c2] at h; exact push_add3_fixed v0 w _ _ _ _ _ _ _ h
    rw [if_neg c2] at h
    by_cases c3 : t = 3
    · rw [if_pos c3] at h; exact push_add3_fixed v0 w _ _ _ _ _ _ _ h
    rw [if_neg c3] at h
    by_cases c4 : t = 4
    · rw [if_pos c4] at h; exact pairLoop_fixed _ v0 w h
    rw [if_neg c4] at h
    by_cases c5 : t = 5
    · rw [if_pos c5] at h; exact fanLoop_fixed v0 w h
    rw [if_neg c5] at h
    by_cases c6 : t = 6
    · rw [if_pos c6] at h
      exact bind_fixed v0 _ _ w (fun u hu => slotLoop_fixed 1 v0 u hu)
        (fun u y hy => addInput_fixed u y 1 0 hy) h
    rw [if_neg c6] at h
    by_cases c7 : t = 7
    · rw [if_pos c7] at h; exact slotLoop_fixed 0 v0 w h
    rw [if_neg c7] at h
    by_cases c8 : t = 8
    · rw [if_pos c8] at h; exact push_add_fixed v0 w 1 1 0 h
    rw [if_neg c8] at h
    by_cases c9 : t = 9
    · rw [if_pos c9] at h; exact pushSlot_fixed v0 w 0 h
    rw [if_neg c9] at h
    cases h; exact sameFixed_refl _

theorem noteOn_frame (v w : Voice) (n : Int) (h : v.noteOn n = some w) :
    v.SameFixed w ∧ v.SameWiring w := by
  unfold Voice.noteOn at h
  split_ifs at h
  · cases h; exact ⟨sameFixed_refl v, rfl, rfl, rfl⟩
  · split at h
    · cases h
    · cases h; exact ⟨⟨rfl, rfl, rfl, rfl, rfl⟩, rfl, rfl, rfl⟩

theorem setOperatorParam_frame (v w : Voice) (op param : Int) (value : ℚ)
    (h : v.setOperatorParam op param value = some w) : v.SameFixed w ∧ v.SameWiring w := by
  unfold Voice.setOperatorParam at h
  split_ifs at h
  · cases h; exact ⟨sameFixed_refl v, rfl, rfl, rfl⟩
  · split at h
    · cases h
    · cases h; exact ⟨⟨rfl, rfl, rfl, rfl, rfl⟩, rfl, rfl, rfl⟩

theorem getOperatorParam_frame (B : OperatorBehaviour) (v : Voice) (op param : Int)
    (r : ℚ × Voice) (h : v.getOperatorParam B op param = some r) :
    v.SameFixed r.2 ∧ v.SameWiring r.2 := by
  unfold Voice.getOperatorParam at h
  split_ifs at h
  · cases h; exact ⟨sameFixed_refl v, rfl, rfl, rfl⟩
  · split at h
    · cases h
    · cases h; exact ⟨⟨rfl, rfl, rfl, rfl, rfl⟩, rfl, rfl, rfl⟩

/-- Every public operation other than `setOperatorArrangement` leaves the
arrangement index, the slots and the operators as they are. -/
theorem apply_wiring (B : OperatorBehaviour) (v w : Voice) (op : Op)
    (hop : ∀ t, op ≠ Op.setOperatorArrangement t) (h : v.apply B op = some w) :
    v.SameWiring w := by
  cases op with
  | setOperatorArrangement t => exact absurd rfl (hop t)
  | noteOn n => exact (noteOn_frame v w n h).2
  | noteOff => cases h; exact ⟨rfl, rfl, rfl⟩
  | evaluate => cases h; exact ⟨rfl, rfl, rfl⟩
  | setSamplerate sr => cases h; exact ⟨rfl, rfl, rfl⟩
  | setOperatorParam o p x => exact (setOperatorParam_frame v w o p x h).2
  | getOperatorParam o p =>
      obtain ⟨r, hr, e⟩ := Option.map_eq_some'.mp h
      rw [← e]; exact (getOperatorParam_frame B v o p r hr).2
  | isPlaying => cases h; exact ⟨rfl, rfl, rfl⟩

/-- No public operation changes a member fixed by the constructor. -/
theorem apply_fixed (B : OperatorBehaviour) (v : Voice) (op : Op) (w : Voice)
    (h : v.apply B op = some w) : v.SameFixed w := by
  cases op with
  | setOperatorArrangement t => exact setOperatorArrangement_fixed v w t h
  | noteOn n => exact (noteOn_frame v w n h).1
  | noteOff => cases h; exact ⟨rfl, rfl, rfl, rfl, rfl⟩
  | evaluate => cases h; exact ⟨rfl, rfl, rfl, rfl, rfl⟩
  | setSamplerate sr => cases h; exact ⟨rfl, rfl, rfl, rfl, rfl⟩
  | setOperatorParam o p x => exact (setOperatorParam_frame v w o p x h).1
  | getOperatorParam o p =>
      obtain ⟨r, hr, e⟩ := Option.map_eq_some'.mp h
      rw [← e]; exact (getOperatorParam_frame B v o p r hr).1
  | isPlaying => cases h; exact ⟨rfl, rfl, rfl, rfl, rfl⟩

theorem run_fixed (B : OperatorBehaviour) (v w : Voice) (ops : List Op)
    (h : v.run B ops = some w) : v.SameFixed w :=
  foldlM_fixed (Voice.apply B) (apply_fixed B) ops v w h

/-- A run from the constructor keeps the members the constructor fixed. -/
theorem run_construct (B : OperatorBehaviour) (freq : List ℚ) (numOps : Int) (ops : List Op)
    (v : Voice) (h : (Voice.construct freq numOps).run B ops = some v) :
    v.frequencyTable = freq ∧ v.numOperators = numOps ∧
      v.operators.length = numOps.toNat ∧ v.numOperatorArrangements = 10 ∧
      v.operatorArrangementDescriptions =
        ["1>2>3>4", "1+2>3>4", "1+(2>3)>4", "(1>2)+3>4", "1>2,3>4",
         "1>2,1>3,1>4", "1>2,3,4", "1,2,3,4", "1>2", "1"] := by
  obtain ⟨h1, h2, h3, h4, h5⟩ := run_fixed B _ v ops h
  exact ⟨h1, h2, by rw [h3]; simp [Voice.construct], h4, h5⟩

theorem pushSlot_total (n : Nat) (v : Voice) (hv : v.operators.length = n) (i : Nat)
    (hi : i < n) : ∃ w, v.pushSlot i = some w ∧ w.operators.length = n := by
  have hget : v.operators[i]? = some (v.operators[i]) :=
    List.getElem?_eq_getElem (by omega)
  exact ⟨{ v with slots := v.slots ++ [i] }, by simp [Voice.pushSlot, hget], hv⟩

theorem addInput_total (n : Nat) (v : Voice) (hv : v.operators.length = n) (i j : Nat)
    (hi : i < n) (hj : j < n) : ∃ w, v.addInput i j = some w ∧ w.operators.length = n := by
  have hgi : v.operators[i]? = some (v.operators[i]) :=
    List.getElem?_eq_getElem (by omega)
  have hgj : v.operators[j]? = some (v.operators[j]) :=
    List.getElem?_eq_getElem (by omega)
  refine ⟨{ v with
      operators := v.operators.set i ((v.operators[i]).addInputOperator j)
      log := v.log ++ [Event.addInputOperator i j] }, by simp only [Voice.addInput, hgi, hgj], ?_⟩
  simp [hv]

theorem bind_total (n : Nat) (x : Option Voice) (g : Voice → Option Voice)
    (hx : ∃ u, x = some u ∧ u.operators.length = n)
    (hg : ∀ u, u.operators.length = n → ∃ y, g u = some y ∧ y.operators.length = n) :
    ∃ y, x.bind g = some y ∧ y.operators.length = n := by
  obtain ⟨u, hu, hlen⟩ := hx
  obtain ⟨y, hy, hylen⟩ := hg u hlen
  exact ⟨y, by rw [hu]; exact hy, hylen⟩

/-- The loop of case 0 started at a counter inside the vector stays inside it. -/
theorem chainLoop_total (n i : Nat) (hi : i < n) :
    ∀ v : Voice, v.operators.length = n →
      ∃ w, Voice.chainLoop i v = some w ∧ w.operators.length = n := by
  induction i with
  | zero => intro v hv; exact ⟨v, rfl, hv⟩
  | succ k ih =>
      intro v hv
      exact bind_total n _ _ (addInput_total n v hv (k + 1) k hi (by omega))
        (ih (by omega))

/-- The loop of case 4 started at a counter inside the vector stays inside it. -/
theorem pairLoop_total (n i : Nat) (hi : i < n) :
    ∀ v : Voice, v.operators.length = n →
      ∃ w, Voice.pairLoop i v = some w ∧ w.operators.length = n := by
  induction i using Nat.strong_induction_on with
  | _ i ih =>
      intro v hv
      match i, ih, hi with
      | 0, _, _ => exact ⟨v, rfl, hv⟩
      | 1, _, hi =>
          exact bind_total n _ _ (pushSlot_total n v hv 1 hi)
            (fun u hu => addInput_total n u hu 1 0 hi (by omega))
      | k + 2, ih, hi =>
          exact bind_total n _ _ (pushSlot_total n v hv (k + 2) hi)
            (fun u hu => bind_total n _ _ (addInput_total n u hu (k + 2) (k + 1) hi (by omega))
              (ih k (by omega) (by omega)))

theorem foldlM_total (n : Nat) (g : Voice → Nat → Option Voice) (xs : List Nat)
    (hxs : ∀ a ∈ xs, a < n)
    (hg : ∀ (v : Voice) (a : Nat), v.operators.length = n → a < n →
      ∃ w, g v a = some w ∧ w.operators.length = n) :
    ∀ v : Voice, v.operators.length = n →
      ∃ w, xs.foldlM g v = some w ∧ w.operators.length = n := by
  induction xs with
  | nil => intro v hv; exact ⟨v, rfl, hv⟩
  | cons a rest ih =>
      intro v hv
      rw [List.foldlM_cons]
      exact bind_total n _ _ (hg v a hv (hxs a (List.mem_cons_self a rest)))
        (ih (fun b hb => hxs b (List.mem_cons_of_mem a hb)))

theorem mem_drop_range (n k a : Nat) (h : a ∈ (List.range n).drop k) : a < n :=
  List.mem_range.mp (List.mem_of_mem_drop h)

/-- With at least four operators every index used by `setOperatorArrangement` is
inside the vector, for every integer argument: the call returns, and the vector
keeps its size. -/
theorem setOperatorArrangement_total (v : Voice) (h4 : 4 ≤ v.operators.length) (t : Int) :
    ∃ w, v.setOperatorArrangement t = some w ∧ w.operators.length = v.operators.length := by
  unfold Voice.setOperatorArrangement
  by_cases hg : t < 0 ∨ t > v.numOperatorArrangements ∨ t = v.operatorArrangement
  · rw [if_pos hg]; exact ⟨v, rfl, rfl⟩
  · rw [if_neg hg]
    dsimp only
    generalize hv0 : Voice.resetAll _ = v0
    have hlen : v0.operators.length = v.operators.length := by
      rw [← hv0]; simp [Voice.resetAll]
    generalize hn : v.operators.length = n at hlen h4 ⊢
    have b3 : ∀ (i a b c d e f : Nat), i < n → a < n → b < n → c < n → d < n → e < n → f < n →
        ∃ w, ((v0.pushSlot i).bind (fun p => (p.addInput a b).bind (fun q =>
          (q.addInput c d).bind (fun r => r.addInput e f)))) = some w ∧
          w.operators.length = n :=
      fun i a b c d e f hi ha hb hc hd he hf =>
        bind_total n _ _ (pushSlot_total n v0 hlen i hi)
          (fun p hp => bind_total n _ _ (addInput_total n p hp a b ha hb)
            (fun q hq => bind_total n _ _ (addInput_total n q hq c d hc hd)
              (fun r hr => addInput_total n r hr e f he hf)))
    by_cases c0 : t = 0
    · rw [if_pos c0, hlen, if_neg (by omega)]
      exact bind_total n _ _ (pushSlot_total n v0 hlen _ (by omega))
        (chainLoop_total n _ (by omega))
    rw [if_neg c0]
    by_cases c1 : t = 1
    · rw [if_pos c1]
      exact b3 3 3 2 2 0 2 1 (by omega) (by omega) (by omega) (by omega) (by omega)
        (by omega) (by omega)
    rw [if_neg c1]
    by_cases c2 : t = 2
    · rw [if_pos c2]
      exact b3 3 3 0 3 2 2 1 (by omega) (by omega) (by omega) (by omega) (by omega)
        (by omega) (by omega)
    rw [if_neg c2]
    by_cases c3 : t = 3
    · rw [if_pos c3]
      exact b3 3 3 2 3 1 2 0 (by omega) (by omega) (by omega) (by omega) (by omega)
        (by omega) (by omega)
    rw [if_neg c3]
    by_cases c4 : t = 4
    · rw [if_pos c4, hlen]; exact pairLoop_total n _ (by omega) v0 hlen
    rw [if_neg c4]
    by_cases c5 : t = 5
    · rw [if_pos c5]
      unfold Voice.fanLoop
      exact foldlM_total n _ _ (fun a ha => mem_drop_range _ _ a (by rw [hlen] at ha; exact ha))
        (fun u a hu ha => bind_total n _ _ (pushSlot_total n u hu a ha)
          (fun p hp => addInput_total n p hp a 0 ha (by omega))) v0 hlen
    rw [if_neg c5]
    by_cases c6 : t = 6
    · rw [if_pos c6]
      unfold Voice.slotLoop
      exact bind_total n _ _
        (foldlM_total n _ _ (fun a ha => mem_drop_range _ _ a (by rw [hlen] at ha; exact ha))
          (fun u a hu ha => pushSlot_total n u hu a ha) v0 hlen)
        (fun p hp => addInput_total n p hp 1 0 (by omega) (by omega))
    rw [if_neg c6]
    by_cases c7 : t = 7
    · rw [if_pos c7]
      unfold Voice.slotLoop
      exact foldlM_total n _ _ (fun a ha => mem_drop_range _ _ a (by rw [hlen] at ha; exact ha))
        (fun u a hu ha => pushSlot_total n u hu a ha) v0 hlen
    rw [if_neg c7]
    by_cases c8 : t = 8
    · rw [if_pos c8]
      exact bind_total n _ _ (pushSlot_total n v0 hlen 1 (by omega))
        (fun p hp => addInput_total n p hp 1 0 (by omega) (by omega))
    rw [if_neg c8]
    by_cases c9 : t = 9
    · rw [if_pos c9]; exact pushSlot_total n v0 hlen 0 (by omega)
    rw [if_neg c9]
    exact ⟨v0, rfl, hlen⟩

/-- On `Voice.canon` every accepted index builds a slot list of distinct indices
below 4. -/
theorem canon_slots :
    ∀ n < 11, ∃ c, Voice.canon.setOperatorArrangement (n : Nat) = some c ∧
      c.operators.length = 4 ∧ (∀ s ∈ c.slots, s < 4) ∧ c.slots.Nodup := by
  decide

/-- A property kept by every public operation holds after every run. -/
theorem run_invariant (B : OperatorBehaviour) (P : Voice → Prop)
    (hstep : ∀ v op w, P v → v.apply B op = some w → P w) (ops : List Op) :
    ∀ v w, P v → v.run B ops = some w → P w := by
  induction ops with
  | nil => intro v w hv h; cases h; exact hv
  | cons op rest ih =>
      intro v w hv h
      unfold Voice.run at h
      rw [List.foldlM_cons] at h
      obtain ⟨u, hu, hw⟩ := Option.bind_eq_some.mp h
      exact ih u w (hstep v op u hv hu) hw

/-- One public operation on a 4-operator voice whose slots are owned and distinct
gives such a voice again. -/
theorem apply_slotsOwned (B : OperatorBehaviour) (v : Voice) (op : Op) (w : Voice)
    (hv : v.IsFourOperator ∧ v.SlotsOwned) (h : v.apply B op = some w) :
    w.IsFourOperator ∧ w.SlotsOwned := by
  by_cases harr : ∃ t, op = Op.setOperatorArrangement t
  · obtain ⟨t, rfl⟩ := harr
    have h1 : v.setOperatorArrangement t = some w := h
    by_cases hg : t < 0 ∨ t > v.numOperatorArrangements ∨ t = v.operatorArrangement
    · rw [setOperatorArrangement_rejected v t hg] at h1
      cases h1; exact hv
    · rw [hv.1.2.2] at hg
      push_neg at hg
      obtain ⟨h0, h10, hne⟩ := hg
      obtain ⟨c, hc, hlen, hs, hnd⟩ := canon_slots t.toNat (by omega)
      rw [Int.toNat_of_nonneg h0] at hc
      rw [setOperatorArrangement_canon v hv.1 t hne h0 h10, hc] at h1
      cases h1
      exact ⟨rewire_isFourOperator v c hv.1 hlen, hs, hnd⟩
  · have hop : ∀ t, op ≠ Op.setOperatorArrangement t := fun t e => harr ⟨t, e⟩
    obtain ⟨_, hslots, _⟩ := apply_wiring B v w op hop h
    obtain ⟨_, hn, hl, ha, _⟩ := apply_fixed B v op w h
    refine ⟨⟨hn.trans hv.1.1, hl.trans hv.1.2.1, ha.trans hv.1.2.2⟩, ?_⟩
    unfold Voice.SlotsOwned
    rw [hslots]
    exact hv.2

theorem arrange_total (types : List Int) :
    ∀ v : Voice, 4 ≤ v.operators.length →
      ∃ w, v.arrange types = some w ∧ w.operators.length = v.operators.length := by
  induction types with
  | nil => intro v _; exact ⟨v, rfl, rfl⟩
  | cons t rest ih =>
      intro v hv
      obtain ⟨u, hu, hlen⟩ := setOperatorArrangement_total v hv t
      obtain ⟨w, hw, hwlen⟩ := ih u (by omega)
      refine ⟨w, ?_, by omega⟩
      simp only [Voice.arrange, List.foldlM_cons, hu] at hw ⊢
      exact hw

/-- One operation that is no `setOperatorArrangement( t )` with t other than 0 keeps
a voice in arrangement 0 that has no wiring as it is wired. -/
theorem apply_unwired (B : OperatorBehaviour) (v : Voice) (op : Op) (w : Voice)
    (hop : op.KeepsArrangementZero) (hv : v.operatorArrangement = 0 ∧ v.Unwired)
    (h : v.apply B op = some w) : w.operatorArrangement = 0 ∧ w.Unwired := by
  by_cases harr : ∃ t, op = Op.setOperatorArrangement t
  · obtain ⟨t, rfl⟩ := harr
    have ht : t = 0 := hop
    have h1 : v.setOperatorArrangement t = some w := h
    rw [setOperatorArrangement_rejected v t (Or.inr (Or.inr (by rw [ht, hv.1])))] at h1
    cases h1; exact hv
  · obtain ⟨ha, hs, ho⟩ := apply_wiring B v w op (fun t e => harr ⟨t, e⟩) h
    refine ⟨ha.trans hv.1, ?_⟩
    unfold Voice.Unwired
    rw [hs, ho]
    exact hv.2

/-- A voice stays as the constructor leaves it, in arrangement 0 with no slot and
no modulation input, under every run of operations that are no
`setOperatorArrangement( t )` with t other than 0; there `evaluate()` returns 0 and
`isPlaying()` returns false whatever the operators produce. -/
theorem fresh_voice_stays_unwired (B C : OperatorBehaviour) (freq : List ℚ) (numOps : Int)
    (ops : List Op) (hops : ∀ op ∈ ops, op.KeepsArrangementZero) (v : Voice)
    (hr : (Voice.construct freq numOps).run B ops = some v) :
    v.getOperatorArrangement = 0 ∧ v.Unwired ∧ (v.evaluate C).1 = 0 ∧
      (v.isPlaying C).1 = false := by
  have key : ∀ (l : List Op), (∀ op ∈ l, op.KeepsArrangementZero) →
      ∀ u w : Voice, u.operatorArrangement = 0 ∧ u.Unwired → u.run B l = some w →
        w.operatorArrangement = 0 ∧ w.Unwired := by
    intro l
    induction l with
    | nil => intro _ u w hu h; cases h; exact hu
    | cons op rest ih =>
        intro hl u w hu h
        unfold Voice.run at h
        rw [List.foldlM_cons] at h
        obtain ⟨x, hx, hw⟩ := Option.bind_eq_some.mp h
        exact ih (fun o ho => hl o (List.mem_cons_of_mem op ho)) x w
          (apply_unwired B u op x (hl op (List.mem_cons_self op rest)) hu hx) hw
  have hfresh : (Voice.construct freq numOps).operatorArrangement = 0 ∧
      (Voice.construct freq numOps).Unwired := by
    refine ⟨rfl, rfl, ?_⟩
    intro o ho
    rw [List.eq_of_mem_replicate ho]
  obtain ⟨ha, hs, hi⟩ := key ops hops _ v hfresh hr
  refine ⟨ha, ⟨hs, hi⟩, ?_, ?_⟩
  · rw [evaluate_value]; simp [Voice.slotValues, hs, Voice.slotValuesFrom]
  · simp [Voice.isPlaying, hs, Voice.isPlayingLoop]

/-- C15: in every state `v` reached from `Voice( freq, numOps )` by public
operations, for an operator index op with op < 0 or op >= numOperators and every
param, `getOperatorParam` returns the sentinel -9999.9 and `setOperatorParam` returns,
both with the voice and its call history exactly as before (no operator is
called); for 0 <= op < numOperators `getOperatorParam` returns what `getParam( param )`
of operator op returns and `setOperatorParam` calls `setParam( param, value )` on
operator op, and that one call is all that either adds to the history. -/
theorem C15_operator_param_range_checked (B : OperatorBehaviour) (freq : List ℚ)
    (numOps : Int) (ops : List Op) (v : Voice)
    (hr : (Voice.construct freq numOps).run B ops = some v) (op param : Int) (value : ℚ) :
    v.numOperators = numOps ∧
    (op < 0 ∨ op ≥ numOps →
      v.getOperatorParam B op param = some (-9999.9, v) ∧
      v.setOperatorParam op param value = some v) ∧
    (0 ≤ op → op < numOps →
      v.getOperatorParam B op param =
        some (B.getParam v.log op.toNat param,
          { v with log := v.log ++ [Event.getParam op.toNat param] }) ∧
      v.setOperatorParam op param value =
        some { v with log := v.log ++ [Event.setParam op.toNat param value] }) := by
  obtain ⟨_, hn, hl, _, _⟩ := run_construct B freq numOps ops v hr
  refine ⟨hn, ?_, ?_⟩
  · intro h
    have hg : op < 0 ∨ op ≥ v.numOperators := by rw [hn]; exact h
    refine ⟨?_, by simp [Voice.setOperatorParam, hg]⟩
    simp only [Voice.getOperatorParam, hg, if_true]
    norm_num
  · intro h0 h1
    have hg : ¬ (op < 0 ∨ op ≥ v.numOperators) := by rw [hn]; omega
    have hget : v.operators[op.toNat]? = some (v.operators[op.toNat]) :=
      List.getElem?_eq_getElem (by omega)
    exact ⟨by simp only [Voice.getOperatorParam, hg, if_false, hget],
      by simp only [Voice.setOperatorParam, hg, if_false, hget]⟩

/-- C15 (witness): on a freshly constructed 4-operator voice, index 4 and index -1
give the sentinel and change nothing; index 3 reaches operator 3. -/
theorem C15_operator_param_range_checked_witness :
    (Voice.construct [] 4).getOperatorParam OperatorBehaviour.sample 4 0 =
        some (-9999.9, Voice.construct [] 4) ∧
    (Voice.construct [] 4).getOperatorParam OperatorBehaviour.sample (-1) 0 =
        some (-9999.9, Voice.construct [] 4) ∧
    (Voice.construct [] 4).setOperatorParam 4 0 1 = some (Voice.construct [] 4) ∧
    (Voice.construct [] 4).setOperatorParam 3 0 1 =
        some { Voice.construct [] 4 with
          log := (Voice.construct [] 4).log ++ [Event.setParam 3 0 1] } := by
  have h := fun op => C15_operator_param_range_checked OperatorBehaviour.sample [] 4 []
    (Voice.construct [] 4) rfl op 0 1
  exact ⟨((h 4).2.1 (by decide)).1, ((h (-1)).2.1 (by decide)).1, ((h 4).2.1 (by decide)).2,
    ((h 3).2.2 (by decide) (by decide)).2⟩

/-- C16: in every state `v` reached from `Voice( freq, numOps )` by public
operations, `getOperatorArrangementDescription( type )` returns the empty string
for type < 0 or type >= 10, and for 0 <= type <= 9 the type-th entry of the list
"1>2>3>4", "1+2>3>4", "1+(2>3)>4", "(1>2)+3>4", "1>2,3>4", "1>2,1>3,1>4", "1>2,3,4",
"1,2,3,4", "1>2", "1"; the lookup is inside the list, so a string is returned. -/
theorem C16_description_lookup (B : OperatorBehaviour) (freq : List ℚ) (numOps : Int)
    (ops : List Op) (v : Voice) (hr : (Voice.construct freq numOps).run B ops = some v)
    (type : Int) :
    (type < 0 ∨ type ≥ 10 → v.getOperatorArrangementDescription type = some "") ∧
    (0 ≤ type → type ≤ 9 →
      v.getOperatorArrangementDescription type =
        ["1>2>3>4", "1+2>3>4", "1+(2>3)>4", "(1>2)+3>4", "1>2,3>4",
         "1>2,1>3,1>4", "1>2,3,4", "1,2,3,4", "1>2", "1"][type.toNat]? ∧
      ∃ s, v.getOperatorArrangementDescription type = some s) ∧
    v.getNumOperatorArrangements = 10 ∧ v.operatorArrangementDescriptions.length = 10 := by
  obtain ⟨_, _, _, ha, hd⟩ := run_construct B freq numOps ops v hr
  refine ⟨?_, ?_, ha, by rw [hd]; rfl⟩
  · intro h
    have hg : type < 0 ∨ type ≥ v.numOperatorArrangements := by rw [ha]; exact h
    simp [Voice.getOperatorArrangementDescription, hg]
  · intro h0 h9
    have hg : ¬ (type < 0 ∨ type ≥ v.numOperatorArrangements) := by rw [ha]; omega
    have he : v.getOperatorArrangementDescription type =
        ["1>2>3>4", "1+2>3>4", "1+(2>3)>4", "(1>2)+3>4", "1>2,3>4",
         "1>2,1>3,1>4", "1>2,3,4", "1,2,3,4", "1>2", "1"][type.toNat]? := by
      simp only [Voice.getOperatorArrangementDescription, hg, if_false, hd]
    refine ⟨he, ?_⟩
    rw [he]
    interval_cases type <;> exact ⟨_, rfl⟩

/-- C16 (witness): indices 9 and 3 give "1" and "(1>2)+3>4", index 10 and index -1
give the empty string, on a freshly constructed 4-operator voice. -/
theorem C16_description_lookup_witness :
    (Voice.construct [] 4).getOperatorArrangementDescription 9 = some "1" ∧
    (Voice.construct [] 4).getOperatorArrangementDescription 3 = some "(1>2)+3>4" ∧
    (Voice.construct [] 4).getOperatorArrangementDescription 10 = some "" ∧
    (Voice.construct [] 4).getOperatorArrangementDescription (-1) = some "" := by
  have h := fun t => C16_description_lookup OperatorBehaviour.sample [] 4 []
    (Voice.construct [] 4) rfl t
  exact ⟨((h 9).2.1 (by decide) (by decide)).1, ((h 3).2.1 (by decide) (by decide)).1,
    (h 10).1 (by decide), (h (-1)).1 (by decide)⟩

/-- C17: in every state reached from `Voice( freq, 4 )` by any sequence of public
operations, every entry of `slots` is one of the four owned operators (an index
0..3) and no operator appears in `slots` more than once. -/
theorem C17_slots_owned_distinct (B : OperatorBehaviour) (freq : List ℚ) (ops : List Op)
    (v : Voice) (hr : (Voice.construct freq 4).run B ops = some v) :
    v.operators.length = 4 ∧ (∀ s ∈ v.slots, s < v.operators.length) ∧ v.slots.Nodup := by
  have hstart : (Voice.construct freq 4).IsFourOperator ∧ (Voice.construct freq 4).SlotsOwned :=
    ⟨⟨rfl, rfl, rfl⟩, by unfold Voice.SlotsOwned; simp [Voice.construct]⟩
  obtain ⟨h4, hs, hnd⟩ := run_invariant B
    (fun u => u.IsFourOperator ∧ u.SlotsOwned) (apply_slotsOwned B) ops _ v hstart hr
  exact ⟨h4.2.1, by rw [h4.2.1]; exact hs, hnd⟩

/-- C17 (witness): after the switch to topology 7, a rejected note, a note-off, a
sample and the switch to topology 4 the slots are op4 and op2. -/
theorem C17_slots_owned_distinct_witness :
    ∃ v, (Voice.construct [] 4).run OperatorBehaviour.sample
        [Op.setOperatorArrangement 7, Op.noteOn 128, Op.noteOff, Op.evaluate,
          Op.setOperatorArrangement 4] = some v ∧
      v.slots = [3, 1] ∧ (∀ s ∈ v.slots, s < v.operators.length) ∧ v.slots.Nodup := by
  have hrun : ∃ v, (Voice.construct [] 4).run OperatorBehaviour.sample
        [Op.setOperatorArrangement 7, Op.noteOn 128, Op.noteOff, Op.evaluate,
          Op.setOperatorArrangement 4] = some v ∧ v.slots = [3, 1] := by
    decide
  obtain ⟨v, hv, hs⟩ := hrun
  obtain ⟨_, h1, h2⟩ := C17_slots_owned_distinct OperatorBehaviour.sample [] _ v hv
  exact ⟨v, hv, hs, h1, h2⟩

/-- C18: in every state `v` reached by public operations from a voice constructed
with at least 4 operators, the vector still has the constructed size, and
`setOperatorArrangement( type )` returns for every integer type, as does every
sequence of such calls: each index it uses, `operators.size() - 1` and `i - 1` of
the loops included, is inside the vector and each wiring loop ends. -/
theorem C18_setOperatorArrangement_in_bounds (B : OperatorBehaviour) (freq : List ℚ)
    (numOps : Int) (h4 : 4 ≤ numOps) (ops : List Op) (v : Voice)
    (hr : (Voice.construct freq numOps).run B ops = some v) (type : Int) (types : List Int) :
    (v.operators.length : Int) = numOps ∧
    (∃ w, v.setOperatorArrangement type = some w ∧ w.operators.length = v.operators.length) ∧
    (∃ w, v.arrange types = some w ∧ w.operators.length = v.operators.length) := by
  obtain ⟨_, _, hl, _, _⟩ := run_construct B freq numOps ops v hr
  have hlen : 4 ≤ v.operators.length := by omega
  exact ⟨by omega, setOperatorArrangement_total v hlen type, arrange_total types v hlen⟩

/-- C18 (witness): a freshly constructed 6-operator voice; the chain topology 0,
entered from topology 7, makes op6 the slot. -/
theorem C18_setOperatorArrangement_in_bounds_witness :
    ((Voice.construct [] 6).operators.length : Int) = 6 ∧
    (∃ w, (Voice.construct [] 6).setOperatorArrangement 4 = some w ∧
      w.operators.length = (Voice.construct [] 6).operators.length) ∧
    (∃ w, (Voice.construct [] 6).arrange [7, 0, 11, -3] = some w ∧
      w.operators.length = (Voice.construct [] 6).operators.length) :=
  C18_setOperatorArrangement_in_bounds OperatorBehaviour.sample [] 6 (by decide) []
    (Voice.construct [] 6) rfl 4 [7, 0, 11, -3]

/-- C19 (code at the failing input): on a freshly constructed 4-operator voice the
calls `setOperatorArrangement( 10 )`, `setOperatorArrangement( 0 )` leave the slot
list non-empty (op4 is the slot, the chain is wired) although neither call has an
argument in 1..9: the index 10 is accepted and moves the arrangement off 0, so
the call with 0 is no longer rejected. -/
theorem C19_slots_filled_without_index_one_to_nine (B : OperatorBehaviour) :
    (∀ op ∈ [Op.setOperatorArrangement 10, Op.setOperatorArrangement 0],
      ¬ op.SelectsOneToNine) ∧
    ∃ u, (Voice.construct [] 4).run B [Op.setOperatorArrangement 10] = some u ∧
      u.slots = [] ∧ u.getOperatorArrangement = 10 ∧
      ∃ w, u.run B [Op.setOperatorArrangement 0] = some w ∧
        w.slots = [3] ∧ w.getOperatorArrangement = 0 ∧
        w.operators.map Operator.inputOperators = [[], [0], [1], [2]] := by
  refine ⟨by decide, ?_⟩
  have h : ∃ u, (Voice.construct [] 4).setOperatorArrangement 10 = some u ∧
      u.slots = [] ∧ u.getOperatorArrangement = 10 ∧
      ∃ w, u.setOperatorArrangement 0 = some w ∧
        w.slots = [3] ∧ w.getOperatorArrangement = 0 ∧
        w.operators.map Operator.inputOperators = [[], [0], [1], [2]] := by decide
  obtain ⟨u, hu, h1, h2, w, hw, h3, h4, h5⟩ := h
  refine ⟨u, ?_, h1, h2, w, ?_, h3, h4, h5⟩
  · simp [Voice.run, Voice.apply, hu]
  · simp [Voice.run, Voice.apply, hw]

end YumSynth
